import Mathlib

/-!
Verification of the catalog organizer core (Rust) against its specification.

The Rust sources are embedded shallowly:

* machine integers become `Nat`/`Int`;
* `chrono` date-time values become explicit structures; `chrono`
  comparisons on `DateTime<FixedOffset>` compare instants (UTC), which we
  model via `utcMillis`;
* `std::collections::BinaryHeap` is modelled by its documented contract: a
  bag of elements (kept as the insertion list) whose `peek` returns a
  maximal element with respect to the element ordering;
* fallible Rust code (`Result`, plus `panic!`/`unwrap`) becomes
  `Except String` / `Option`, with `unwrap` of `None` mapped to an error;
* the external metadata tool (`ExifTool`) is a collaborator; its reads and
  copies are oracles passed in as function arguments, and the file system
  is a list of paths.

Rust names are kept wherever Lean allows.
-/

namespace Catalog

/-! ## Date and time model (prim/conv.rs and the chrono contract) -/

/-- A `chrono::NaiveDateTime` restricted to millisecond precision, which is
all the RFC 3339 strings accepted by `parse_date_time` can carry (its regex
allows at most three fractional digits). -/
structure NaiveDT where
  year   : Nat
  month  : Nat
  day    : Nat
  hour   : Nat
  minute : Nat
  second : Nat
  millis : Nat
  deriving DecidableEq, Repr

/-- Days from civil epoch 1970-01-01 (Howard Hinnant's algorithm), used to
give `NaiveDT` its instant value. -/
def daysFromCivil (y m d : Nat) : Int :=
  let yi : Int := (y : Int) - (if m <= 2 then 1 else 0)
  let era : Int := (if yi >= 0 then yi else yi - 399) / 400
  let yoe : Int := yi - era * 400
  let mi : Int := (m : Int)
  let doy : Int := (153 * (mi + (if mi > 2 then -3 else 9)) + 2) / 5 + (d : Int) - 1
  let doe : Int := yoe * 365 + yoe / 4 - yoe / 100 + doy
  era * 146097 + doe - 719468

/-- Total milliseconds of a `NaiveDT` since the epoch (no time zone). -/
def NaiveDT.toMillis (t : NaiveDT) : Int :=
  ((daysFromCivil t.year t.month t.day * 24 + (t.hour : Int)) * 60
      + (t.minute : Int)) * 60 * 1000
    + (t.second : Int) * 1000 + (t.millis : Int)

/-- A `chrono::DateTime<FixedOffset>`: a naive local date-time plus a fixed
UTC offset in seconds. -/
structure DateTimeFO where
  naive         : NaiveDT
  offsetSeconds : Int
  deriving DecidableEq, Repr

/-- The instant of a `DateTime<FixedOffset>` in milliseconds since the
epoch; `chrono` orders and equates `DateTime` values by this instant. -/
def DateTimeFO.utcMillis (t : DateTimeFO) : Int :=
  t.naive.toMillis - t.offsetSeconds * 1000

/-- `chrono`'s `Ord` on `DateTime<FixedOffset>`: compare instants. -/
def DateTimeFO.cmp (a b : DateTimeFO) : Ordering :=
  compare a.utcMillis b.utcMillis

/-! ### `parse_date_time` (prim/conv.rs)

The Rust function matches the input against the anchored regex

  `^(\d{4}-\d{2}-\d{2}T\d{2}:\d{2}:\d{2}(?:.\d{1,3})?)([+-]\d{2}:\d{2})?$`

and then parses with `DateTime::parse_from_rfc3339` when the offset group
is present, else with `NaiveDateTime::parse_from_str` and format
`%Y-%m-%dT%H:%M:%S%.f`. Both chrono parsers additionally require the
fractional separator (the regex's unescaped `.`) to be a literal dot, and
check calendar validity. We embed the regex by direct character matching
with the regex's greedy backtracking order, and chrono's validity checks
explicitly. -/

/-- Is the character an ASCII decimal digit. -/
def isDigit (c : Char) : Bool :=
  (48 : Nat) <= c.toNat && c.toNat <= 57

/-- Numeric value of a list of ASCII digits (most significant first). -/
def digitsToNat : List Char → Nat
  | [] => 0
  | c :: cs => (c.toNat - 48) * 10 ^ cs.length + digitsToNat cs

/-- Days in a month, with leap years (chrono calendar validity). -/
def daysInMonth (y m : Nat) : Nat :=
  if m = 2 then
    if y % 4 = 0 && (y % 100 != 0 || y % 400 = 0) then 29 else 28
  else if m = 4 || m = 6 || m = 9 || m = 11 then 30
  else 31

/-- chrono validity of the parsed fields: valid calendar date, hour below
24, minute below 60, second at most 60 (second 60 is chrono's leap-second
representation, which both chrono parsers accept). -/
def validDT (t : NaiveDT) : Bool :=
  1 <= t.month && t.month <= 12 && 1 <= t.day && t.day <= daysInMonth t.year t.month
    && t.hour < 24 && t.minute < 60 && t.second <= 60

/-- Match the mandatory 19-character prefix `dddd-dd-ddTdd:dd:dd` and
return the date-time fields (without fraction) plus the remaining input. -/
def matchDateTime19 (cs : List Char) : Option (NaiveDT × List Char) :=
  match cs with
  | y1 :: y2 :: y3 :: y4 :: d1 :: mo1 :: mo2 :: d2 :: da1 :: da2 :: t1 ::
      h1 :: h2 :: c1 :: mi1 :: mi2 :: c2 :: s1 :: s2 :: rest =>
    if isDigit y1 && isDigit y2 && isDigit y3 && isDigit y4 && d1 = '-'
        && isDigit mo1 && isDigit mo2 && d2 = '-' && isDigit da1 && isDigit da2
        && t1 = 'T' && isDigit h1 && isDigit h2 && c1 = ':' && isDigit mi1
        && isDigit mi2 && c2 = ':' && isDigit s1 && isDigit s2 then
      some (⟨digitsToNat [y1, y2, y3, y4], digitsToNat [mo1, mo2],
             digitsToNat [da1, da2], digitsToNat [h1, h2],
             digitsToNat [mi1, mi2], digitsToNat [s1, s2], 0⟩, rest)
    else none
  | _ => none

/-- Match `([+-]\d{2}:\d{2})?$`: either end of input (no offset) or exactly
a sign, two digits, a colon and two digits. Returns the offset in seconds
when present. -/
def matchTzEnd (cs : List Char) : Option (Option Int) :=
  match cs with
  | [] => some none
  | sg :: h1 :: h2 :: co :: m1 :: m2 :: [] =>
    if (sg = '+' || sg = '-') && isDigit h1 && isDigit h2 && co = ':'
        && isDigit m1 && isDigit m2 then
      let secs : Int := (digitsToNat [h1, h2] * 3600 + digitsToNat [m1, m2] * 60 : Nat)
      some (some (if sg = '-' then -secs else secs))
    else none
  | _ => none

/-- One fractional-group attempt: separator character, `n` digits, then the
offset-or-end tail. -/
def matchFracN (n : Nat) (cs : List Char) : Option ((Char × List Char) × Option Int) :=
  match cs with
  | [] => none
  | c :: rest =>
    let ds := rest.take n
    if ds.length = n && ds.all isDigit then
      match matchTzEnd (rest.drop n) with
      | some tz => some ((c, ds), tz)
      | none => none
    else none

/-- Match `(?:.\d{1,3})?([+-]\d{2}:\d{2})?$` with the regex's greedy
backtracking: try a 3-digit fraction first, then 2, then 1, then none. -/
def matchTail (cs : List Char) : Option (Option (Char × List Char) × Option Int) :=
  match matchFracN 3 cs with
  | some (f, tz) => some (some f, tz)
  | none =>
    match matchFracN 2 cs with
    | some (f, tz) => some (some f, tz)
    | none =>
      match matchFracN 1 cs with
      | some (f, tz) => some (some f, tz)
      | none =>
        match matchTzEnd cs with
        | some tz => some (none, tz)
        | none => none

/-- Milliseconds denoted by one to three fractional digits. -/
def fracMillis (ds : List Char) : Nat :=
  match ds with
  | [d1] => (d1.toNat - 48) * 100
  | [d1, d2] => (d1.toNat - 48) * 100 + (d2.toNat - 48) * 10
  | [d1, d2, d3] => (d1.toNat - 48) * 100 + (d2.toNat - 48) * 10 + (d3.toNat - 48)
  | _ => 0

/-- `prim::conv::parse_date_time`. Returns the naive local date-time and
the offset when one was written. Errors mirror the Rust error cases: the
regex does not match, the fractional separator is not a dot (both chrono
parsers then reject), the offset is out of `FixedOffset` range, or the
fields are not a valid calendar date-time. -/
def parse_date_time (s : String) : Except String (NaiveDT × Option Int) :=
  match matchDateTime19 s.data with
  | none => .error ("Date Time string did not match regex: " ++ s)
  | some (base, rest) =>
    match matchTail rest with
    | none => .error ("Date Time string did not match regex: " ++ s)
    | some (frac, tz) =>
      let withMs : Option NaiveDT :=
        match frac with
        | none => some base
        | some (sep, ds) =>
          if sep = '.' then some { base with millis := fracMillis ds } else none
      match withMs with
      | none => .error ("Unable to parse date and time: " ++ s)
      | some t =>
        if validDT t then
          match tz with
          | some off =>
            if off < 86400 && -86400 < off then .ok (t, some off)
            else .error ("Unable to parse date and time: " ++ s)
          | none => .ok (t, none)
        else .error ("Unable to parse date and time: " ++ s)

/-! ## Metadata (prim/metadata.rs) -/

/-- `prim::Metadata`: the tag bundle `ExifTool` reports for one file. -/
structure Metadata where
  source_file                : String
  file_type                  : String
  file_type_extension        : String
  compressor_id              : Option String := none
  content_identifier         : Option String := none
  creator                    : Option String := none
  copyright                  : Option String := none
  make                       : Option String := none
  model                      : Option String := none
  file_modify_date           : String := ""
  modify_date                : Option String := none
  sub_sec_modify_date        : Option String := none
  create_date                : Option String := none
  sub_sec_create_date        : Option String := none
  date_time_original         : Option String := none
  sub_sec_date_time_original : Option String := none
  gps_latitude               : Option String := none
  gps_longitude              : Option String := none
  gps_position               : Option String := none
  city                       : Option String := none
  state                      : Option String := none
  country                    : Option String := none
  deriving DecidableEq, Repr

/-- `prim::FileCategory`. -/
inductive FileCategory where
  | Media
  | SidecarInitial
  | SidecarDupe
  deriving DecidableEq, Repr

/-! ### `Metadata::parse_file_name`

The Rust regex is `^(?:./)?([^.]*?)(?:_(\d{2}))?\.([^.]*)(?:\.[Xx][Mm][Pp])?$`
(note the unescaped leading dot: any character followed by a slash). We
embed it by direct matching in the regex's backtracking order: the lazy
stem grows from the shortest match; at each stem the greedy optional
duplicate-number group is tried first. -/

/-- Split a character list on a separator (the char-level counterpart of
the string splitting the Rust code does via `Path` operations). -/
def splitOnChar (sep : Char) : List Char → List (List Char)
  | [] => [[]]
  | c :: rest =>
    let r := splitOnChar sep rest
    if c = sep then [] :: r
    else
      match r with
      | [] => [[c]]
      | g :: gs => (c :: g) :: gs

/-- ASCII lower-casing of one character. -/
def lowerChar (c : Char) : Char :=
  if 65 <= c.toNat && c.toNat <= 90 then Char.ofNat (c.toNat + 32) else c

/-- Case-insensitive match of a three-character list against `xmp`. -/
def isXmpChars (cs : List Char) : Bool :=
  match cs with
  | [x, m, p] => (x = 'x' || x = 'X') && (m = 'm' || m = 'M') && (p = 'p' || p = 'P')
  | _ => false

/-- Match `([^.]*)(?:\.[Xx][Mm][Pp])?$`: the base extension is every
character up to the end or up to a final `.xmp` (case-insensitive); no
other dot may remain. -/
def matchBaseExt (cs : List Char) : Option (List Char) :=
  match splitOnChar '.' cs with
  | [ext] => some ext
  | [ext, xmp] => if isXmpChars xmp then some ext else none
  | _ => none

/-- After a fixed stem: try the greedy `(?:_(\d{2}))?` then the mandatory
dot and the base-extension tail. -/
def matchAfterStem (cs : List Char) : Option (Option (List Char) × List Char) :=
  match cs with
  | '_' :: d1 :: d2 :: '.' :: rest =>
    if isDigit d1 && isDigit d2 then
      match matchBaseExt rest with
      | some ext => some (some [d1, d2], ext)
      | none =>
        match cs with
        | '.' :: rest2 => (matchBaseExt rest2).map (fun e => (none, e))
        | _ => none
    else
      match cs with
      | '.' :: rest2 => (matchBaseExt rest2).map (fun e => (none, e))
      | _ => none
  | '.' :: rest => (matchBaseExt rest).map (fun e => (none, e))
  | _ => none

/-- The lazy stem `([^.]*?)`: starting from the empty stem, extend one
non-dot character at a time until the tail matches. -/
def matchStem (acc : List Char) (cs : List Char) :
    Option (List Char × Option (List Char) × List Char) :=
  match matchAfterStem cs with
  | some (dupe, ext) => some (acc, dupe, ext)
  | none =>
    match cs with
    | [] => none
    | c :: rest =>
      if c = '.' then none
      else matchStem (acc ++ [c]) rest

/-- Components of a parsed file name (`prim::ParsedFileName`). -/
structure ParsedFileName where
  parent_and_stem : String
  dupe_number     : Option String
  base_ext        : String
  deriving DecidableEq, Repr

/-- `Metadata::parse_file_name`. The optional leading group `(?:./)?` is
tried greedily first, as the regex engine does. -/
def Metadata.parse_file_name (m : Metadata) : Option ParsedFileName :=
  let cs := m.source_file.data
  let core : List Char → Option ParsedFileName := fun l =>
    (matchStem [] l).map fun (stem, dupe, ext) =>
      ⟨String.mk stem, dupe.map String.mk, String.mk ext⟩
  match cs with
  | c1 :: '/' :: rest =>
    match core rest with
    | some r => some r
    | none => core (c1 :: '/' :: rest)
  | _ => core cs

/-- `Metadata::get_file_category`. The Rust function asserts that
`file_type` is set (not `-`) for media; the assertion is not modelled as
no settled claim reaches it with `-`. -/
def Metadata.get_file_category (m : Metadata) : FileCategory :=
  if m.file_type = "XMP" then
    match m.parse_file_name with
    | some p => if p.dupe_number.isSome then .SidecarDupe else .SidecarInitial
    | none => .SidecarInitial
  else .Media

/-! ## Codec and Media (prim/media.rs) -/

/-- `prim::Codec`. -/
inductive Codec where
  | AVC
  | HEIC
  | HEVC
  | JPEG
  | Other
  deriving DecidableEq, Repr

/-- `Codec::rank` (`u8::MAX` is 255). -/
def Codec.rank : Codec → Nat
  | .HEIC | .HEVC => 255
  | .JPEG | .AVC => 254
  | .Other => 0

/-- `Ord for Codec`: compare ranks. -/
def Codec.cmp (a b : Codec) : Ordering :=
  compare a.rank b.rank

/-- `prim::Media`: metadata plus optional handle of the initial sidecar
and handles of duplicate sidecars. `Handle<T>` is a plain index (`Nat`). -/
structure Media where
  metadata : Metadata
  sidecar  : Option Nat := none
  dupes    : List Nat := []
  deriving DecidableEq, Repr

/-- `Media::get_codec`. -/
def Media.get_codec (m : Media) : Codec :=
  match m.metadata.file_type with
  | "JPEG" => .JPEG
  | "HEIC" => .HEIC
  | "MOV" =>
    match m.metadata.compressor_id with
    | some "avc1" => .AVC
    | some "hev1" => .HEVC
    | some "hvc1" => .HEVC
    | _ => .Other
  | _ => .Other

/-- The `QuickTime:ModifyDate` placeholder that `Media::get_modify_date`
filters out. -/
def zeroDateString : String := "0000:00:00 00:00:00"

/-- `Media::get_modify_date`. Exactly as the source: take
`sub_sec_modify_date`, else `modify_date`; drop the result when it equals
the zero placeholder; fall back to `file_modify_date`; parse; attach the
written offset, else the machine-local offset for that naive time
(`get_offset_local`, passed in as `loc`). The Rust `.unwrap()` of a parse
failure becomes `none`. -/
def Media.get_modify_date (m : Media) (loc : NaiveDT → Int) : Option DateTimeFO :=
  let modifyDate :=
    (((m.metadata.sub_sec_modify_date).or m.metadata.modify_date).filter
        (fun d => d != zeroDateString)).getD m.metadata.file_modify_date
  match parse_date_time modifyDate with
  | .error _ => none
  | .ok (dt, tz) => some ⟨dt, tz.getD (loc dt)⟩

/-- `Media::is_missing_sidecar`. -/
def Media.is_missing_sidecar (m : Media) : Bool :=
  m.sidecar.isNone

/-! ## Live Photo linker (prim/live_photos.rs) -/

/-- `prim::LivePhotoLinkMetadata`: the deduplication key stored in the
heaps, alongside its media handle. -/
structure LivePhotoLinkMetadata where
  media_handle  : Nat
  codec         : Codec
  last_modified : DateTimeFO
  deriving DecidableEq, Repr

/-- `LivePhotoLinkMetadata::new`. Building the entry evaluates
`Media::get_modify_date`, whose parse `.unwrap()` can panic; hence
`Option`. -/
def LivePhotoLinkMetadata.new (handle : Nat) (media : Media) (loc : NaiveDT → Int) :
    Option LivePhotoLinkMetadata :=
  (media.get_modify_date loc).map fun d => ⟨handle, media.get_codec, d⟩

/-- `Ord for LivePhotoLinkMetadata`: codec comparison first, modification
instant on a tie. -/
def LivePhotoLinkMetadata.cmp (a b : LivePhotoLinkMetadata) : Ordering :=
  match Codec.cmp a.codec b.codec with
  | .eq => DateTimeFO.cmp a.last_modified b.last_modified
  | val => val

/-- `std::collections::BinaryHeap`, modelled by its contract: the elements
in insertion order, with `peek` returning a maximal element (the first
maximal one under the fold below; the claims settled here do not depend on
which maximal element the real heap roots). -/
def heapPeek (l : List LivePhotoLinkMetadata) : Option LivePhotoLinkMetadata :=
  match l with
  | [] => none
  | x :: xs =>
    some (xs.foldl (fun best a =>
      if LivePhotoLinkMetadata.cmp best a = .lt then a else best) x)

/-- `prim::LivePhotoLinker`: one heap of images and one of videos. -/
structure LivePhotoLinker where
  images : List LivePhotoLinkMetadata := []
  videos : List LivePhotoLinkMetadata := []
  deriving DecidableEq, Repr

namespace LivePhotoLinker

/-- `LivePhotoLinker::drain`: all handles, images first, emptying both
heaps. -/
def drain (l : LivePhotoLinker) : List Nat × LivePhotoLinker :=
  ((l.images ++ l.videos).map (·.media_handle), ⟨[], []⟩)

/-- `LivePhotoLinker::drain_images`. -/
def drain_images (l : LivePhotoLinker) : List Nat × LivePhotoLinker :=
  (l.images.map (·.media_handle), { l with images := [] })

/-- `LivePhotoLinker::drain_videos`. -/
def drain_videos (l : LivePhotoLinker) : List Nat × LivePhotoLinker :=
  (l.videos.map (·.media_handle), { l with videos := [] })

/-- `LivePhotoLinker::get_image_best`: `peek().unwrap()`; `none` models
the panic on an empty image heap. -/
def get_image_best (l : LivePhotoLinker) : Option Nat :=
  (heapPeek l.images).map (·.media_handle)

/-- `LivePhotoLinker::get_video_best`. -/
def get_video_best (l : LivePhotoLinker) : Option Nat :=
  (heapPeek l.videos).map (·.media_handle)

/-- `LivePhotoLinker::has_duplicate_images`. -/
def has_duplicate_images (l : LivePhotoLinker) : Bool :=
  l.images.length > 1

/-- `LivePhotoLinker::has_duplicate_videos`. -/
def has_duplicate_videos (l : LivePhotoLinker) : Bool :=
  l.videos.length > 1

/-- `LivePhotoLinker::insert_image` (`BinaryHeap::push`). -/
def insert_image (l : LivePhotoLinker) (e : LivePhotoLinkMetadata) : LivePhotoLinker :=
  { l with images := l.images ++ [e] }

/-- `LivePhotoLinker::insert_video`. -/
def insert_video (l : LivePhotoLinker) (e : LivePhotoLinkMetadata) : LivePhotoLinker :=
  { l with videos := l.videos ++ [e] }

/-- `LivePhotoLinker::is_pair`. -/
def is_pair (l : LivePhotoLinker) : Bool :=
  l.images.length = 1 && l.videos.length = 1

/-- `LivePhotoLinker::is_leftover_videos`. -/
def is_leftover_videos (l : LivePhotoLinker) : Bool :=
  l.images.isEmpty

end LivePhotoLinker

/-! ## FileMap (prim/file_map.rs) -/

/-- `prim::FileMap<T>`: a vector of optional slots (`None` is a tombstone)
plus a path-to-handle index (the `HashMap`, as an association list keyed
by most recent insertion). -/
structure FileMap (T : Type) where
  data           : List (Option T) := []
  path_to_handle : List (String × Nat) := []
  deriving DecidableEq, Repr

namespace FileMap

/-- Association-list update mirroring `HashMap::insert` (replaces any
previous binding for the key). -/
def assocSet (l : List (String × Nat)) (k : String) (v : Nat) : List (String × Nat) :=
  (k, v) :: l.filter (fun p => p.1 != k)

/-- `FileMap::new`. -/
def new (T : Type) : FileMap T := {}

/-- `FileMap::insert`: push a fresh live slot and point the path index at
it. There is no duplicate check of any kind. -/
def insert (m : FileMap T) (path : String) (data : T) : FileMap T :=
  { data := m.data ++ [some data],
    path_to_handle := assocSet m.path_to_handle path m.data.length }

/-- `FileMap::find`. -/
def find (m : FileMap T) (path : String) : Option Nat :=
  (m.path_to_handle.find? (fun p => p.1 = path)).map (·.2)

/-- Read a slot: `self.data[handle]` as an `Option` access; `none` when
the index is out of bounds or the slot is a tombstone. -/
def get? (m : FileMap T) (h : Nat) : Option T :=
  (m.data.getD h none)

/-- `get_entry_mut(handle).take()`: tombstone the slot, keeping the path
index (the Rust take does not touch `path_to_handle`). The Rust indexing
panics when `handle` is out of bounds; callers below surface that case
themselves via `get?`. -/
def takeAt (m : FileMap T) (h : Nat) : FileMap T :=
  { m with data := m.data.set h none }

/-- The values of the live slots, in slot order (`iter_data`). -/
def liveData (m : FileMap T) : List T :=
  m.data.filterMap id

end FileMap

/-! ## Sidecars (prim/sidecar_initial.rs, prim/sidecar_dupe.rs) -/

/-- `prim::SidecarInitial`. -/
structure SidecarInitial where
  metadata : Metadata
  media    : Option Nat := none
  deriving DecidableEq, Repr

/-- `SidecarInitial::new`: requires the metadata to classify as an initial
sidecar and the parsed base extension to differ from `xmp`
(case-insensitive). -/
def SidecarInitial.new (metadata : Metadata) : Except String SidecarInitial :=
  if metadata.get_file_category != FileCategory.SidecarInitial then
    .error (metadata.source_file ++ ": Invalid sidecar file type (" ++ metadata.file_type ++ ").")
  else
    match metadata.parse_file_name with
    | none => .error (metadata.source_file ++ ": Invalid sidecar file extension.")
    | some p =>
      if p.base_ext.data.map lowerChar = "xmp".data then
        .error (metadata.source_file ++ ": Invalid sidecar file extension.")
      else .ok ⟨metadata, none⟩

/-- `SidecarInitial::is_leftover` (trait `Sidecar`). -/
def SidecarInitial.is_leftover (s : SidecarInitial) : Bool :=
  s.media.isNone

/-- `prim::SidecarDupe`: additionally carries the parsed two-digit
duplicate number. -/
structure SidecarDupe where
  metadata    : Metadata
  media       : Option Nat := none
  dupe_number : String := "01"
  deriving DecidableEq, Repr

/-- `SidecarDupe::is_leftover` (trait `Sidecar`). -/
def SidecarDupe.is_leftover (s : SidecarDupe) : Bool :=
  s.media.isNone

/-! ## Organizer state (org/mod.rs) -/

/-- `org::stage_5_validation::ValidationConfig`. -/
structure ValidationConfig where
  attribution : Bool := false
  camera      : Bool := false
  date_time   : Bool := false
  location    : Bool := false
  deriving DecidableEq, Repr

/-- `ValidationConfig::enabled`. -/
def ValidationConfig.enabled (c : ValidationConfig) : Bool :=
  c.attribution || c.camera || c.date_time || c.location

/-- The `org::Organizer` fields the settled claims touch, plus the two
pieces of the outside world the stages read and write: `trash` is `some`
with the trash directory's current contents when a trash directory was
supplied (`None` in import mode), and `disk` is the set of paths that
exist on disk (stage 2 consults and extends it). Paths are kept relative
to the source directory; `to_abs_path` is the identity in this model. -/
structure OrgState where
  media          : FileMap Media := {}
  sidecars       : FileMap SidecarInitial := {}
  dupes          : FileMap SidecarDupe := {}
  live_photo_map : List (String × LivePhotoLinker) := []
  validation     : ValidationConfig := {}
  valid_media    : List Nat := []
  trash          : Option (List String) := none
  disk           : List String := []
  deriving DecidableEq, Repr

/-! ## Stage 1 (org/stage_1_cleanup.rs) -/

/-- `io::remove_file` reached through `stage_1_cleanup::remove_by_path`:
with a trash directory, error on a name collision in trash, else record
the file there; without one, do nothing. (The checks that the path is
under the root and not already under trash cannot fire in this model,
where every catalog path is relative to the root.) -/
def remove_by_path (tr : Option (List String)) (path : String) :
    Except String (Option (List String)) :=
  match tr with
  | none => .ok none
  | some files =>
    if path ∈ files then
      .error (path ++ ": Cannot remove file due to name collision in trash.")
    else .ok (some (files ++ [path]))

/-- Take each handle's `Media` out of the map (error when the slot is
already a tombstone, as in the Rust `ok_or` lookup) and trash its file.
Returns the updated map and trash plus the removed paths. -/
def takeAndTrash (media : FileMap Media) (tr : Option (List String)) :
    List Nat → Except String (FileMap Media × Option (List String) × List String)
  | [] => .ok (media, tr, [])
  | h :: rest =>
    match media.get? h with
    | none => .error ("Cannot find media handle `" ++ toString h ++ "` in map.")
    | some m =>
      match remove_by_path tr m.metadata.source_file with
      | .error e => .error e
      | .ok tr1 =>
        match takeAndTrash (media.takeAt h) tr1 rest with
        | .error e => .error e
        | .ok (media2, tr2, removed) =>
          .ok (media2, tr2, m.metadata.source_file :: removed)

/-- The leftover half of `Organizer::remove_live_photo_leftovers`: drain
every leftover group and remove its media. -/
def removeLeftoverGroups (media : FileMap Media) (tr : Option (List String)) :
    List (String × LivePhotoLinker) →
    Except String (FileMap Media × Option (List String) × List String)
  | [] => .ok (media, tr, [])
  | (_, l) :: rest =>
    match takeAndTrash media tr (l.drain).1 with
    | .error e => .error e
    | .ok (media1, tr1, r1) =>
      match removeLeftoverGroups media1 tr1 rest with
      | .error e => .error e
      | .ok (media2, tr2, r2) => .ok (media2, tr2, r1 ++ r2)

/-- `Organizer::remove_live_photo_leftovers`: partition the linker map on
`is_leftover_videos`, keep the good groups, and trash every media file of
the leftover groups. -/
def remove_live_photo_leftovers (s : OrgState) :
    Except String (OrgState × List String) :=
  let leftover := s.live_photo_map.filter (fun p => p.2.is_leftover_videos)
  let good := s.live_photo_map.filter (fun p => !p.2.is_leftover_videos)
  match removeLeftoverGroups s.media s.trash leftover with
  | .error e => .error e
  | .ok (media1, tr1, removed) =>
    .ok ({ s with live_photo_map := good, media := media1, trash := tr1 }, removed)

/-- The two linker sides, standing in for the function tuples that
`remove_live_photo_duplicates_by_type` is generic over. -/
inductive LPSide where
  | image
  | video
  deriving DecidableEq, Repr

/-- The opposite side. -/
def sideOther (sd : LPSide) : LPSide :=
  match sd with
  | .image => .video
  | .video => .image

/-- The chosen side's heap. -/
def sideList (sd : LPSide) (l : LivePhotoLinker) : List LivePhotoLinkMetadata :=
  match sd with
  | .image => l.images
  | .video => l.videos

/-- `has_duplicate_images` / `has_duplicate_videos`. -/
def sideHasDuplicates (sd : LPSide) (l : LivePhotoLinker) : Bool :=
  (sideList sd l).length > 1

/-- `get_image_best` / `get_video_best`. -/
def sideBest (sd : LPSide) (l : LivePhotoLinker) : Option Nat :=
  (heapPeek (sideList sd l)).map (·.media_handle)

/-- `drain_images` / `drain_videos`. -/
def sideDrain (sd : LPSide) (l : LivePhotoLinker) : List Nat × LivePhotoLinker :=
  match sd with
  | .image => l.drain_images
  | .video => l.drain_videos

/-- `insert_image` / `insert_video`. -/
def sideInsert (sd : LPSide) (l : LivePhotoLinker) (e : LivePhotoLinkMetadata) :
    LivePhotoLinker :=
  match sd with
  | .image => l.insert_image e
  | .video => l.insert_video e

/-- Take-and-trash every drained handle other than the kept best one. -/
def takeOthers (media : FileMap Media) (tr : Option (List String)) (keep : Nat) :
    List Nat → Except String (FileMap Media × Option (List String) × List String)
  | [] => .ok (media, tr, [])
  | h :: rest =>
    if h = keep then takeOthers media tr keep rest
    else
      match media.get? h with
      | none => .error ("Cannot find media handle `" ++ toString h ++ "` in map.")
      | some m =>
        match remove_by_path tr m.metadata.source_file with
        | .error e => .error e
        | .ok tr1 =>
          match takeOthers (media.takeAt h) tr1 keep rest with
          | .error e => .error e
          | .ok (media2, tr2, removed) =>
            .ok (media2, tr2, m.metadata.source_file :: removed)

/-- The per-group body of `remove_live_photo_duplicates_by_type`: when the
side has duplicates, keep the best handle, drain and trash the rest, and
reinsert the best (recomputing its link metadata from the live `Media`,
which indexes the map and evaluates `get_modify_date`; both can panic). -/
def dedupOne (loc : NaiveDT → Int) (sd : LPSide) (media : FileMap Media)
    (tr : Option (List String)) (l : LivePhotoLinker) :
    Except String (LivePhotoLinker × FileMap Media × Option (List String) × List String) :=
  if !sideHasDuplicates sd l then .ok (l, media, tr, [])
  else
    match sideBest sd l with
    | none => .error "panic: peek().unwrap() on empty heap"
    | some handle =>
      match takeOthers media tr handle (sideDrain sd l).1 with
      | .error e => .error e
      | .ok (media1, tr1, removed) =>
        match media1.get? handle with
        | none => .error "panic: index into tombstoned media slot"
        | some m =>
          match LivePhotoLinkMetadata.new handle m loc with
          | none => .error "panic: get_modify_date parse failed"
          | some e => .ok (sideInsert sd (sideDrain sd l).2 e, media1, tr1, removed)

/-- `remove_live_photo_duplicates_by_type`: apply `dedupOne` to every
linker entry in map order (`values_mut`). -/
def dedupByType (loc : NaiveDT → Int) (sd : LPSide) (media : FileMap Media)
    (tr : Option (List String)) :
    List (String × LivePhotoLinker) →
    Except String (List (String × LivePhotoLinker) × FileMap Media ×
      Option (List String) × List String)
  | [] => .ok ([], media, tr, [])
  | (id, l) :: rest =>
    match dedupOne loc sd media tr l with
    | .error e => .error e
    | .ok (l1, media1, tr1, r1) =>
      match dedupByType loc sd media1 tr1 rest with
      | .error e => .error e
      | .ok (rest1, media2, tr2, r2) => .ok ((id, l1) :: rest1, media2, tr2, r1 ++ r2)

/-- `Organizer::remove_live_photo_duplicates`: the image side first, then
the video side. -/
def remove_live_photo_duplicates (loc : NaiveDT → Int) (s : OrgState) :
    Except String (OrgState × List String) :=
  match dedupByType loc .image s.media s.trash s.live_photo_map with
  | .error e => .error e
  | .ok (map1, media1, tr1, r1) =>
    match dedupByType loc .video media1 tr1 map1 with
    | .error e => .error e
    | .ok (map2, media2, tr2, r2) =>
      .ok ({ s with live_photo_map := map2, media := media2, trash := tr2 }, r1 ++ r2)

/-- `take_if(is_leftover)` over one sidecar map: tombstone and trash every
leftover entry, in slot order (`iter_entries_mut`). -/
def removeLeftoverSlots (isLeftover : T → Bool) (pathOf : T → String)
    (tr : Option (List String)) :
    List (Option T) → Except String (List (Option T) × Option (List String) × List String)
  | [] => .ok ([], tr, [])
  | none :: rest =>
    match removeLeftoverSlots isLeftover pathOf tr rest with
    | .error e => .error e
    | .ok (rest1, tr1, removed) => .ok (none :: rest1, tr1, removed)
  | some x :: rest =>
    if isLeftover x then
      match remove_by_path tr (pathOf x) with
      | .error e => .error e
      | .ok tr1 =>
        match removeLeftoverSlots isLeftover pathOf tr1 rest with
        | .error e => .error e
        | .ok (rest1, tr2, removed) => .ok (none :: rest1, tr2, pathOf x :: removed)
    else
      match removeLeftoverSlots isLeftover pathOf tr rest with
      | .error e => .error e
      | .ok (rest1, tr1, removed) => .ok (some x :: rest1, tr1, removed)

/-- `Organizer::remove_sidecar_leftovers`: initial sidecars first, then
duplicates. -/
def remove_sidecar_leftovers (s : OrgState) : Except String (OrgState × List String) :=
  match removeLeftoverSlots SidecarInitial.is_leftover
      (fun sc => sc.metadata.source_file) s.trash s.sidecars.data with
  | .error e => .error e
  | .ok (scData, tr1, r1) =>
    match removeLeftoverSlots SidecarDupe.is_leftover
        (fun sc => sc.metadata.source_file) tr1 s.dupes.data with
    | .error e => .error e
    | .ok (dpData, tr2, r2) =>
      .ok ({ s with
              sidecars := { s.sidecars with data := scData },
              dupes := { s.dupes with data := dpData },
              trash := tr2 }, r1 ++ r2)

/-! ## Stage 2 (io.rs `create_xmp`, org/stage_2_sidecars.rs) -/

/-- Rust `Path::extension`: the part of the final component after its
last dot; `None` when there is no dot, or the only dot leads a hidden
file name. -/
def pathExtension (p : String) : Option String :=
  let name := (splitOnChar '/' p.data).getLastD []
  let parts := splitOnChar '.' name
  match parts with
  | [] => none
  | [_] => none
  | first :: restParts =>
    if first.isEmpty && restParts.length = 1 then none
    else some (String.mk (parts.getLastD []))

/-- `io::create_xmp`. `make_canonical` requires the media path to exist;
the extension must exist and differ from `xmp`; the target `<path>.xmp`
must not already exist, in which case the Rust function returns the
"file already exists" error. On success the tool writes the sidecar
(extending `disk`) and the fresh metadata is read back (`read`, the
`ExifTool` oracle). -/
def create_xmp (disk : List String) (read : String → Metadata) (file_media : String) :
    Except String (Metadata × List String) :=
  if file_media ∉ disk then
    .error (file_media ++ ": Path does not exist.")
  else
    match pathExtension file_media with
    | none => .error (file_media ++ ": Cannot create XMP (invalid extension).")
    | some e =>
      if e = "xmp" then .error (file_media ++ ": Cannot create XMP (invalid extension).")
      else
        let file_xmp := file_media ++ ".xmp"
        if file_xmp ∈ disk then
          .error (file_xmp ++ ": Cannot create XMP (file already exists).")
        else .ok (read file_xmp, disk ++ [file_xmp])

/-- The loop body of `Organizer::create_missing_sidecars` over the live
media slots in order (`iter_data_mut`): skip media with a linked sidecar;
otherwise create the XMP on disk, wrap it as a `SidecarInitial` (which can
reject it) and insert it into the sidecar map. Nothing links the new
sidecar to the media or the media to the sidecar. -/
def createMissingLoop (read : String → Metadata) (sidecars : FileMap SidecarInitial)
    (disk : List String) :
    List (Option Media) → Except String (FileMap SidecarInitial × List String)
  | [] => .ok (sidecars, disk)
  | none :: rest => createMissingLoop read sidecars disk rest
  | some m :: rest =>
    if !m.is_missing_sidecar then createMissingLoop read sidecars disk rest
    else
      match create_xmp disk read m.metadata.source_file with
      | .error e => .error e
      | .ok (metadata, disk1) =>
        match SidecarInitial.new metadata with
        | .error e => .error e
        | .ok sc =>
          createMissingLoop read (sidecars.insert metadata.source_file sc) disk1 rest

/-- `Organizer::create_missing_sidecars`. -/
def create_missing_sidecars (read : String → Metadata) (s : OrgState) :
    Except String OrgState :=
  match createMissingLoop read s.sidecars s.disk s.media.data with
  | .error e => .error e
  | .ok (sidecars1, disk1) => .ok { s with sidecars := sidecars1, disk := disk1 }

/-! ## Stage 4 (org/stage_4_synchronization.rs, Live-Photo sync) -/

/-- Write a live slot of a `FileMap`. -/
def FileMap.setAt (m : FileMap T) (h : Nat) (v : T) : FileMap T :=
  { m with data := m.data.set h (some v) }

/-- The per-group body of `Organizer::sync_live_photo_metadata`.

When the group is not a pair the Rust code logs a warning whose format
arguments call `self.drain()` and index `self.media` for display; the
`log::warn!` macro evaluates those arguments only when warn-level logging
is enabled (`warnEnabled`), in which case both heaps are emptied and a
dead handle panics. There is no `continue`: control always falls through
to `get_image_best`, whose `peek().unwrap()` panics on an empty heap.
`copy` is the `ExifTool` oracle for `io::copy_metadata`, returning the
refreshed destination metadata; the performed copies are logged in the
result. -/
def syncGroupOne (warnEnabled : Bool) (copy : String → String → Metadata)
    (media : FileMap Media) (sidecars : FileMap SidecarInitial) (l : LivePhotoLinker) :
    Except String (LivePhotoLinker × FileMap SidecarInitial × List (String × String)) :=
  let warned : Except String LivePhotoLinker :=
    if !l.is_pair then
      if warnEnabled then
        let (hs, l0) := l.drain
        if hs.all (fun h => (media.get? h).isSome) then .ok l0
        else .error "panic: index into tombstoned media slot"
      else .ok l
    else .ok l
  match warned with
  | .error e => .error e
  | .ok l1 =>
    match l1.get_image_best with
    | none => .error "panic: peek().unwrap() on empty image heap"
    | some hImage =>
      match media.get? hImage with
      | none => .error "panic: index into tombstoned media slot"
      | some mImage =>
        match mImage.sidecar with
        | none => .ok (l1, sidecars, [])
        | some hImageSidecar =>
          match sidecars.get? hImageSidecar with
          | none => .error "panic: index into tombstoned sidecar slot"
          | some scImage =>
            let imagePath := scImage.metadata.source_file
            match l1.get_video_best with
            | none => .error "panic: peek().unwrap() on empty video heap"
            | some hVideo =>
              match media.get? hVideo with
              | none => .error "panic: index into tombstoned media slot"
              | some mVideo =>
                match mVideo.sidecar with
                | none => .ok (l1, sidecars, [])
                | some hVideoSidecar =>
                  match sidecars.get? hVideoSidecar with
                  | none => .error "panic: index into tombstoned sidecar slot"
                  | some scVideo =>
                    let videoPath := scVideo.metadata.source_file
                    let metadata := copy imagePath videoPath
                    .ok (l1,
                      sidecars.setAt hVideoSidecar { scVideo with metadata := metadata },
                      [(imagePath, videoPath)])

/-- The fold of `syncGroupOne` over the linker map (`values_mut`). -/
def syncLoop (warnEnabled : Bool) (copy : String → String → Metadata)
    (media : FileMap Media) (sidecars : FileMap SidecarInitial) :
    List (String × LivePhotoLinker) →
    Except String (List (String × LivePhotoLinker) × FileMap SidecarInitial ×
      List (String × String))
  | [] => .ok ([], sidecars, [])
  | (id, l) :: rest =>
    match syncGroupOne warnEnabled copy media sidecars l with
    | .error e => .error e
    | .ok (l1, sidecars1, c1) =>
      match syncLoop warnEnabled copy media sidecars1 rest with
      | .error e => .error e
      | .ok (rest1, sidecars2, c2) => .ok ((id, l1) :: rest1, sidecars2, c1 ++ c2)

/-- `Organizer::sync_live_photo_metadata`. Returns the updated state and
the list of `copy_metadata` source/destination pairs issued. -/
def sync_live_photo_metadata (warnEnabled : Bool) (copy : String → String → Metadata)
    (s : OrgState) : Except String (OrgState × List (String × String)) :=
  match syncLoop warnEnabled copy s.media s.sidecars s.live_photo_map with
  | .error e => .error e
  | .ok (map1, sidecars1, copies) =>
    .ok ({ s with live_photo_map := map1, sidecars := sidecars1 }, copies)

/-! ## Stage 6 (org/stage_6_organization.rs) -/

/-- One `io::move_file` command: the file to move, the `-tagsFromFile`
metadata source, and the extension appended to the date-time file-name
template. The destination directory is the same for every command and is
omitted. The tool call is assumed to succeed; its failure mode (zero
files updated) aborts the stage and is orthogonal to the ordering and
eligibility claims settled here. -/
structure MoveCmd where
  src             : String
  metadata_source : String
  ext             : String
  deriving DecidableEq, Repr

/-- `stage_6_organization::pick_source`: the initial sidecar's path when
present, else the media path. -/
def pick_source (m : Media) (sc : Option SidecarInitial) : String :=
  match sc with
  | some sc => sc.metadata.source_file
  | none => m.metadata.source_file

/-- `stage_6_organization::move_media_with_deps`: the media extension is
cloned first; every duplicate sidecar is moved, then the media file, then
the initial sidecar. -/
def move_media_with_deps (metadata_source : String) (media : Media)
    (sidecar : Option SidecarInitial) (dupes : List SidecarDupe) : List MoveCmd :=
  let media_file_ext := media.metadata.file_type_extension
  (dupes.map fun d =>
      ⟨d.metadata.source_file, metadata_source,
        "_" ++ d.dupe_number ++ "." ++ media_file_ext ++ ".xmp"⟩)
    ++ [⟨media.metadata.source_file, metadata_source, "." ++ media_file_ext⟩]
    ++ (match sidecar with
        | some sc => [⟨sc.metadata.source_file, metadata_source,
            "." ++ media_file_ext ++ ".xmp"⟩]
        | none => [])

/-- `stage_6_organization::take_media`: `get_entry_mut(h).take().unwrap()`. -/
def take_media (h : Nat) (media : FileMap Media) :
    Except String (Media × FileMap Media) :=
  match media.get? h with
  | none => .error "panic: take().unwrap() on tombstoned media slot"
  | some m => .ok (m, media.takeAt h)

/-- `stage_6_organization::take_sidecar`. -/
def take_sidecar (m : Media) (sidecars : FileMap SidecarInitial) :
    Except String (Option SidecarInitial × FileMap SidecarInitial) :=
  match m.sidecar with
  | none => .ok (none, sidecars)
  | some h =>
    match sidecars.get? h with
    | none => .error "panic: take().unwrap() on tombstoned sidecar slot"
    | some sc => .ok (some sc, sidecars.takeAt h)

/-- `stage_6_organization::take_dupes`. -/
def takeDupesList (dupes : FileMap SidecarDupe) :
    List Nat → Except String (List SidecarDupe × FileMap SidecarDupe)
  | [] => .ok ([], dupes)
  | h :: rest =>
    match dupes.get? h with
    | none => .error "panic: take().unwrap() on tombstoned dupe slot"
    | some d =>
      match takeDupesList (dupes.takeAt h) rest with
      | .error e => .error e
      | .ok (ds, dupes1) => .ok (d :: ds, dupes1)

/-- `take_dupes` applied to a media entry's duplicate handles. -/
def take_dupes (m : Media) (dupes : FileMap SidecarDupe) :
    Except String (List SidecarDupe × FileMap SidecarDupe) :=
  takeDupesList dupes m.dupes

/-- The inner loop of the Live-Photo phase: every drained member other
than the primary is taken (with its sidecars) and moved when the group is
eligible. -/
def processOthers (handleMain : Nat) (metadata_source : String) (shouldMove : Bool)
    (media : FileMap Media) (sidecars : FileMap SidecarInitial)
    (dupes : FileMap SidecarDupe) :
    List Nat → Except String (List MoveCmd × FileMap Media × FileMap SidecarInitial ×
      FileMap SidecarDupe)
  | [] => .ok ([], media, sidecars, dupes)
  | h :: rest =>
    if h = handleMain then processOthers handleMain metadata_source shouldMove media sidecars dupes rest
    else
      match take_media h media with
      | .error e => .error e
      | .ok (m, media1) =>
        match take_sidecar m sidecars with
        | .error e => .error e
        | .ok (sc, sidecars1) =>
          match take_dupes m dupes with
          | .error e => .error e
          | .ok (ds, dupes1) =>
            let cmds := if shouldMove then move_media_with_deps metadata_source m sc ds else []
            match processOthers handleMain metadata_source shouldMove media1 sidecars1 dupes1 rest with
            | .error e => .error e
            | .ok (cmdsRest, media2, sidecars2, dupes2) =>
              .ok (cmds ++ cmdsRest, media2, sidecars2, dupes2)

/-- The Live-Photo phase of `Organizer::move_and_rename_files`: for every
non-leftover group, the best image is the primary; eligibility is decided
from the primary handle alone; every member is taken, the primary last. -/
def phaseA (valid : List Nat) (force : Bool) (media : FileMap Media)
    (sidecars : FileMap SidecarInitial) (dupes : FileMap SidecarDupe) :
    List (String × LivePhotoLinker) →
    Except String (List MoveCmd × FileMap Media × FileMap SidecarInitial ×
      FileMap SidecarDupe)
  | [] => .ok ([], media, sidecars, dupes)
  | (_, link) :: rest =>
    if link.is_leftover_videos then phaseA valid force media sidecars dupes rest
    else
      match link.get_image_best with
      | none => .error "panic: peek().unwrap() on empty image heap"
      | some handleMain =>
        match take_media handleMain media with
        | .error e => .error e
        | .ok (imageMain, media1) =>
          match take_sidecar imageMain sidecars with
          | .error e => .error e
          | .ok (sidecarMain, sidecars1) =>
            match take_dupes imageMain dupes with
            | .error e => .error e
            | .ok (dupesMain, dupes1) =>
              let metadata_source := pick_source imageMain sidecarMain
              let shouldMove := force || valid.contains handleMain
              match processOthers handleMain metadata_source shouldMove media1 sidecars1
                  dupes1 (link.drain).1 with
              | .error e => .error e
              | .ok (cmdsOthers, media2, sidecars2, dupes2) =>
                let cmdsMain :=
                  if shouldMove then
                    move_media_with_deps metadata_source imageMain sidecarMain dupesMain
                  else []
                match phaseA valid force media2 sidecars2 dupes2 rest with
                | .error e => .error e
                | .ok (cmdsRest, media3, sidecars3, dupes3) =>
                  .ok (cmdsOthers ++ cmdsMain ++ cmdsRest, media3, sidecars3, dupes3)

/-- The remaining-media phase: every still-live slot is taken
unconditionally with its sidecars and moved when `force` holds or its own
handle is valid. -/
def phaseB (valid : List Nat) (force : Bool) (idx : Nat)
    (sidecars : FileMap SidecarInitial) (dupes : FileMap SidecarDupe) :
    List (Option Media) → Except String (List MoveCmd)
  | [] => .ok []
  | none :: rest => phaseB valid force (idx + 1) sidecars dupes rest
  | some m :: rest =>
    match take_sidecar m sidecars with
    | .error e => .error e
    | .ok (sc, sidecars1) =>
      match take_dupes m dupes with
      | .error e => .error e
      | .ok (ds, dupes1) =>
        let metadata_source := pick_source m sc
        let cmds :=
          if force || valid.contains idx then move_media_with_deps metadata_source m sc ds
          else []
        match phaseB valid force (idx + 1) sidecars1 dupes1 rest with
        | .error e => .error e
        | .ok cmdsRest => .ok (cmds ++ cmdsRest)

/-- `Organizer::move_and_rename_files`: destination checks, the
validation/force no-op gate (a warning plus success), then the Live-Photo
phase followed by the remaining-media phase. Returns the `io::move_file`
commands issued, in order. -/
def move_and_rename_files (dstIsRelative dstExists : Bool) (force : Bool)
    (s : OrgState) : Except String (List MoveCmd) :=
  if dstIsRelative then .error "Destination path is not absolute."
  else if !dstExists then .error "Destination path does not exist."
  else if !s.validation.enabled && !force then .ok []
  else
    match phaseA s.valid_media force s.media s.sidecars s.dupes s.live_photo_map with
    | .error e => .error e
    | .ok (cmdsA, media1, sidecars1, dupes1) =>
      match phaseB s.valid_media force 0 sidecars1 dupes1 media1.data with
      | .error e => .error e
      | .ok cmdsB => .ok (cmdsA ++ cmdsB)

/-! ## Concrete example values used by witnesses and counterexamples -/

/-- A modification instant for examples: 2000-01-01, UTC. -/
def dtY2000 : DateTimeFO := ⟨⟨2000, 1, 1, 0, 0, 0, 0⟩, 0⟩

/-- A later modification instant for examples: 2025-01-01, UTC. -/
def dtY2025 : DateTimeFO := ⟨⟨2025, 1, 1, 0, 0, 0, 0⟩, 0⟩

/-- Example link entry: an HEIC image modified in 2025. -/
def exLinkHeic : LivePhotoLinkMetadata := ⟨0, .HEIC, dtY2025⟩

/-- Example link entry: a JPEG image modified in 2000. -/
def exLinkJpeg : LivePhotoLinkMetadata := ⟨1, .JPEG, dtY2000⟩

/-- Example link entry: a second HEIC image, modified in 2000. -/
def exLinkHeicOld : LivePhotoLinkMetadata := ⟨2, .HEIC, dtY2000⟩

/-- Example media file for the stage-6 ordering claim. -/
def exMedia4 : Media :=
  { metadata :=
      { source_file := "image.jpg", file_type := "JPEG",
        file_type_extension := "jpg" } }

/-- Example initial sidecar for the stage-6 ordering claim. -/
def exSidecar4 : SidecarInitial :=
  { metadata :=
      { source_file := "image.jpg.xmp", file_type := "XMP",
        file_type_extension := "xmp" } }

/-- Example duplicate sidecar for the stage-6 ordering claim. -/
def exDupe4 : SidecarDupe :=
  { metadata :=
      { source_file := "image_01.jpg.xmp", file_type := "XMP",
        file_type_extension := "xmp" },
    dupe_number := "01" }

/-- A machine-local offset oracle for examples: UTC everywhere. -/
def locUTC : NaiveDT → Int := fun _ => 0

/-- Example media whose `SubSecModifyDate` is the zero placeholder while
`ModifyDate` is a real timestamp: the configuration that separates the
claimed and the actual fallback of `get_modify_date`. -/
def exMedia5 : Media :=
  { metadata :=
      { source_file := "video.mov", file_type := "MOV",
        file_type_extension := "mov", compressor_id := some "hvc1",
        file_modify_date := "2025-01-01T00:00:00+00:00",
        modify_date := some "2000-01-01T00:00:00+00:00",
        sub_sec_modify_date := some zeroDateString } }

/-- Example media with a usable `SubSecModifyDate`. -/
def exMedia5b : Media :=
  { metadata :=
      { source_file := "image.jpg", file_type := "JPEG",
        file_type_extension := "jpg",
        file_modify_date := "2025-01-01T00:00:00+00:00",
        modify_date := some "2010-01-01T00:00:00+00:00",
        sub_sec_modify_date := some "2000-01-01T00:00:00.999-08:00" } }

/-- An abstract operation against a `FileMap`: the two operations the type
supports, insertion and taking a slot. -/
inductive FMOp (T : Type) where
  | ins (path : String) (val : T)
  | takeOp (h : Nat)
  deriving DecidableEq, Repr

/-- Run a sequence of `FileMap` operations; taking an out-of-bounds slot
is the Rust indexing panic. -/
def runOps (m : FileMap T) : List (FMOp T) → Except String (FileMap T)
  | [] => .ok m
  | .ins p v :: rest => runOps (m.insert p v) rest
  | .takeOp h :: rest =>
    if h < m.data.length then runOps (m.takeAt h) rest
    else .error "panic: index out of bounds"

/-- The paths of the live entries, through a caller-supplied projection
(`AsRef<Path>` of the stored values). -/
def livePaths (pathOf : T → String) (m : FileMap T) : List String :=
  m.liveData.map pathOf

/-- The discipline under which callers keep `FileMap` paths unique: every
inserted value's path is fresh among the live entries at insertion time,
and every take is in bounds. -/
def safeOps (pathOf : T → String) (m : FileMap T) : List (FMOp T) → Bool
  | [] => true
  | .ins p v :: rest =>
    (livePaths pathOf m).all (fun q => q != pathOf v)
      && safeOps pathOf (m.insert p v) rest
  | .takeOp h :: rest => decide (h < m.data.length) && safeOps pathOf (m.takeAt h) rest

/-- The map produced by inserting the path `a` twice: two live entries
with the same path. -/
def c6badMap : FileMap String := ⟨[some "a", some "a"], [("a", 1)]⟩

/-- The `ExifTool` read-back oracle for freshly created sidecars. -/
def exXmpRead : String → Metadata := fun p =>
  { source_file := p, file_type := "XMP", file_type_extension := "xmp" }

/-- Metadata of a media file fed to stage 2. -/
def exMedia2Meta : Metadata :=
  { source_file := "image.jpg", file_type := "JPEG", file_type_extension := "jpg",
    file_modify_date := "2025-01-01T00:00:00+00:00" }

/-- Metadata the oracle reports for the created sidecar. -/
def exXmpMeta2 : Metadata :=
  { source_file := "image.jpg.xmp", file_type := "XMP", file_type_extension := "xmp" }

/-- Stage-2 input state: one media file without a linked sidecar and
without a sidecar file on disk. -/
def exState2 : OrgState :=
  { media := ⟨[some { metadata := exMedia2Meta }], [("image.jpg", 0)]⟩,
    disk := ["image.jpg"] }

/-- The state stage 2 produces from `exState2`: the sidecar is inserted
but neither side is linked. -/
def exState2After : OrgState :=
  { media := ⟨[some { metadata := exMedia2Meta }], [("image.jpg", 0)]⟩,
    sidecars := ⟨[some { metadata := exXmpMeta2, media := none }], [("image.jpg.xmp", 0)]⟩,
    disk := ["image.jpg", "image.jpg.xmp"] }

/-- Stage-2 input state whose media already has its target sidecar path
on disk (but no linked sidecar in the map). -/
def exState8 : OrgState :=
  { media := ⟨[some { metadata := exMedia2Meta }], [("image.jpg", 0)]⟩,
    disk := ["image.jpg", "image.jpg.xmp"] }

/-- Metadata of the first example image. -/
def exMeta3i1 : Metadata :=
  { source_file := "i1.heic", file_type := "HEIC",
    file_type_extension := "heic", content_identifier := some "ID" }

/-- Metadata of the second example image. -/
def exMeta3i2 : Metadata :=
  { source_file := "i2.jpg", file_type := "JPEG",
    file_type_extension := "jpg", content_identifier := some "ID" }

/-- Metadata of the example video. -/
def exMeta3v : Metadata :=
  { source_file := "v.mov", file_type := "MOV",
    file_type_extension := "mov", compressor_id := some "hvc1",
    content_identifier := some "ID" }

/-- A sidecar metadata literal for the stage-4 example. -/
def exXmpMetaAt (p : String) : Metadata :=
  { source_file := p, file_type := "XMP", file_type_extension := "xmp" }

/-- Stage-4 example: the Live-Photo group `ID` owns two images (handles 0
and 1) and one video (handle 2), so it is not a pair. -/
def exState3 : OrgState :=
  { media := ⟨[
      some { metadata := exMeta3i1, sidecar := some 0 },
      some { metadata := exMeta3i2, sidecar := some 1 },
      some { metadata := exMeta3v, sidecar := some 2 }],
      [("i1.heic", 0), ("i2.jpg", 1), ("v.mov", 2)]⟩,
    sidecars := ⟨[
      some { metadata := exXmpMetaAt "i1.heic.xmp", media := some 0 },
      some { metadata := exXmpMetaAt "i2.jpg.xmp", media := some 1 },
      some { metadata := exXmpMetaAt "v.mov.xmp", media := some 2 }],
      [("i1.heic.xmp", 0), ("i2.jpg.xmp", 1), ("v.mov.xmp", 2)]⟩,
    live_photo_map := [("ID",
      { images := [⟨0, .HEIC, dtY2025⟩, ⟨1, .JPEG, dtY2000⟩],
        videos := [⟨2, .HEVC, dtY2025⟩] })] }

/-- The handles a linker group owns, images first (drain order). -/
def groupMembers (l : LivePhotoLinker) : List Nat :=
  (l.drain).1

/-- The handles stage 6's Live-Photo phase consumes: the members of every
non-leftover group. -/
def pmOf (map : List (String × LivePhotoLinker)) : List Nat :=
  (map.filter (fun p => !p.2.is_leftover_videos)).flatMap (fun p => groupMembers p.2)

/-- The initial-sidecar handle attached to the media at `h`, as a list. -/
def sidecarHandleOf (media : FileMap Media) (h : Nat) : List Nat :=
  match media.get? h with
  | some m => m.sidecar.toList
  | none => []

/-- The duplicate-sidecar handles attached to the media at `h`. -/
def dupeHandlesOf (media : FileMap Media) (h : Nat) : List Nat :=
  match media.get? h with
  | some m => m.dupes
  | none => []

/-- Sidecar handles consumed by the Live-Photo phase. -/
def pmSOf (s : OrgState) : List Nat :=
  (pmOf s.live_photo_map).flatMap (sidecarHandleOf s.media)

/-- Dupe handles consumed by the Live-Photo phase. -/
def pmDOf (s : OrgState) : List Nat :=
  (pmOf s.live_photo_map).flatMap (dupeHandlesOf s.media)

/-- The live slots of a slot list, with their indices. -/
def liveSlots (i : Nat) : List (Option α) → List (Nat × α)
  | [] => []
  | none :: rest => liveSlots (i + 1) rest
  | some a :: rest => (i, a) :: liveSlots (i + 1) rest

/-- The media entries stage 6's second phase still sees. -/
def restSlotsOf (s : OrgState) : List (Nat × Media) :=
  (liveSlots 0 s.media.data).filter (fun q => !(pmOf s.live_photo_map).contains q.1)

/-- Sidecar handles of the remaining media. -/
def restSOf (s : OrgState) : List Nat :=
  (restSlotsOf s).flatMap (fun q => q.2.sidecar.toList)

/-- Dupe handles of the remaining media. -/
def restDOf (s : OrgState) : List Nat :=
  (restSlotsOf s).flatMap (fun q => q.2.dupes)

/-- Every path of a live entry in any of the three maps. -/
def allPaths (s : OrgState) : List String :=
  s.media.liveData.map (fun m => m.metadata.source_file)
    ++ s.sidecars.liveData.map (fun sc => sc.metadata.source_file)
    ++ s.dupes.liveData.map (fun d => d.metadata.source_file)

/-- Well-formedness of an organizer state as stage 6 receives it: every
handle a linker group names or a media entry references is live, no handle
is referenced twice, and no two live entries share a path. All conjuncts
are decidable. -/
def wfOrg (s : OrgState) : Prop :=
  (pmOf s.live_photo_map).Nodup ∧
  (∀ h ∈ pmOf s.live_photo_map, (s.media.get? h).isSome = true) ∧
  (pmSOf s).Nodup ∧
  (∀ x ∈ pmSOf s, (s.sidecars.get? x).isSome = true) ∧
  (pmDOf s).Nodup ∧
  (∀ x ∈ pmDOf s, (s.dupes.get? x).isSome = true) ∧
  (restSOf s).Nodup ∧
  (∀ x ∈ restSOf s, (s.sidecars.get? x).isSome = true ∧ x ∉ pmSOf s) ∧
  (restDOf s).Nodup ∧
  (∀ x ∈ restDOf s, (s.dupes.get? x).isSome = true ∧ x ∉ pmDOf s) ∧
  (allPaths s).Nodup

/-- The source paths `move_media_with_deps` will emit for one media entry,
resolved against the given sidecar maps. -/
def depSrcsRel (sidecars : FileMap SidecarInitial) (dupes : FileMap SidecarDupe)
    (m : Media) : List String :=
  m.dupes.filterMap (fun hd => (dupes.get? hd).map (fun d => d.metadata.source_file))
    ++ [m.metadata.source_file]
    ++ (match m.sidecar.bind sidecars.get? with
        | some sc => [sc.metadata.source_file]
        | none => [])

/-- The source paths the Live-Photo phase emits for the file at one
handle, when the group's move flag is `sm`. -/
def handleSpec (media : FileMap Media) (sidecars : FileMap SidecarInitial)
    (dupes : FileMap SidecarDupe) (sm : Bool) (h : Nat) : List String :=
  if sm then
    match media.get? h with
    | some m => depSrcsRel sidecars dupes m
    | none => []
  else []

/-- The source paths the Live-Photo phase emits for one linker group. -/
def groupSpecSrcs (media : FileMap Media) (sidecars : FileMap SidecarInitial)
    (dupes : FileMap SidecarDupe) (valid : List Nat) (force : Bool)
    (p : String × LivePhotoLinker) : List String :=
  if p.2.is_leftover_videos then []
  else
    match p.2.get_image_best with
    | none => []
    | some hm =>
      ((groupMembers p.2).filter (fun h => h != hm)).flatMap
          (handleSpec media sidecars dupes (force || valid.contains hm))
        ++ handleSpec media sidecars dupes (force || valid.contains hm) hm

/-- The source paths the remaining-media phase emits. -/
def slotSpecSrcs (sidecars : FileMap SidecarInitial) (dupes : FileMap SidecarDupe)
    (valid : List Nat) (force : Bool) : Nat → List (Option Media) → List String
  | _, [] => []
  | i, none :: rest => slotSpecSrcs sidecars dupes valid force (i + 1) rest
  | i, some m :: rest =>
    (if force || valid.contains i then depSrcsRel sidecars dupes m else [])
      ++ slotSpecSrcs sidecars dupes valid force (i + 1) rest

/-- Set every slot whose index (counted from `i`) is listed in `pm` to a
tombstone. -/
def maskFrom (pm : List Nat) (i : Nat) : List (Option α) → List (Option α)
  | [] => []
  | a :: rest => (if i ∈ pm then none else a) :: maskFrom pm (i + 1) rest

/-- The handle whose validity decides whether the file at `h` moves: the
best image of the non-leftover linker group owning `h`, else `h` itself. -/
def eligibleHandle (map : List (String × LivePhotoLinker)) (h : Nat) : Nat :=
  match map.find? (fun p => !p.2.is_leftover_videos && (groupMembers p.2).contains h) with
  | some p => (p.2.get_image_best).getD h
  | none => h

/-- Metadata of the first stage-1 example image. -/
def exMeta7a : Metadata :=
  { source_file := "i1.heic", file_type := "HEIC", file_type_extension := "heic",
    content_identifier := some "ID", file_modify_date := "2025-01-01T00:00:00+00:00" }

/-- Metadata of the second stage-1 example image. -/
def exMeta7b : Metadata :=
  { source_file := "i2.jpg", file_type := "JPEG", file_type_extension := "jpg",
    content_identifier := some "ID", file_modify_date := "2000-01-01T00:00:00+00:00" }

/-- Metadata of the stage-1 example video. -/
def exMeta7v : Metadata :=
  { source_file := "v.mov", file_type := "MOV", file_type_extension := "mov",
    compressor_id := some "hvc1", content_identifier := some "ID",
    file_modify_date := "2025-01-01T00:00:00+00:00" }

/-- Stage-1 example input: one group with a duplicated image. -/
def exState7 : OrgState :=
  { media := ⟨[some { metadata := exMeta7a }, some { metadata := exMeta7b },
      some { metadata := exMeta7v }],
      [("i1.heic", 0), ("i2.jpg", 1), ("v.mov", 2)]⟩,
    live_photo_map := [("ID",
      { images := [⟨0, .HEIC, dtY2025⟩, ⟨1, .JPEG, dtY2000⟩],
        videos := [⟨2, .HEVC, dtY2025⟩] })],
    trash := some [] }

/-- The state stage 1 leaves behind from `exState7`: the JPEG duplicate is
tombstoned and trashed, the group keeps one image and one video. -/
def exState7After : OrgState :=
  { media := ⟨[some { metadata := exMeta7a }, none, some { metadata := exMeta7v }],
      [("i1.heic", 0), ("i2.jpg", 1), ("v.mov", 2)]⟩,
    live_photo_map := [("ID",
      { images := [⟨0, .HEIC, dtY2025⟩], videos := [⟨2, .HEVC, dtY2025⟩] })],
    trash := some ["i2.jpg"] }

/-- The `copy_metadata` oracle for the stage-4 example. -/
def exCopy : String → String → Metadata := fun _ dst =>
  { source_file := dst, file_type := "XMP", file_type_extension := "xmp",
    creator := some "Image" }

/-- The video sidecar after the warn-disabled stage-4 run: its metadata
has been overwritten from the best image's sidecar. -/
def exScVideoAfter : SidecarInitial :=
  { metadata := exCopy "i1.heic.xmp" "v.mov.xmp", media := some 2 }

/-- The state the warn-disabled stage-4 run actually produces from
`exState3`. -/
def exState3After : OrgState :=
  { exState3 with sidecars := exState3.sidecars.setAt 2 exScVideoAfter }


/-- Metadata of the stage-6 policy counterexample's image. -/
def exMeta9i : Metadata :=
  { source_file := "i.heic", file_type := "HEIC", file_type_extension := "heic" }

/-- Metadata of the stage-6 policy counterexample's video. -/
def exMeta9v : Metadata :=
  { source_file := "v.mov", file_type := "MOV", file_type_extension := "mov",
    compressor_id := some "hvc1" }

/-- Stage-6 policy counterexample state: one Live-Photo group pairing the
image at handle 0 (valid) with the video at handle 1 (not valid),
date-time validation on. -/
def exState9 : OrgState :=
  { media := { data := [some { metadata := exMeta9i }, some { metadata := exMeta9v }],
               path_to_handle := [("i.heic", 0), ("v.mov", 1)] },
    live_photo_map := [("ID", { images := [⟨0, .HEIC, dtY2025⟩],
                                videos := [⟨1, .HEVC, dtY2025⟩] })],
    validation := { date_time := true },
    valid_media := [0] }

/-- The move commands stage 6 issues on the counterexample state: the
video moves first (as a group member), then the primary image. -/
def exCmds9 : List MoveCmd :=
  [⟨"v.mov", "i.heic", ".mov"⟩, ⟨"i.heic", "i.heic", ".heic"⟩]

/-! ### Stage-6 helper lemmas: slot reads after takes -/

/-- Setting a slot to `none` makes its read `none`. -/
theorem getD_set_self (l : List (Option α)) (h : Nat) :
    (l.set h none).getD h none = none := by
  induction l generalizing h with
  | nil => simp
  | cons a tl ih =>
    cases h with
    | zero => simp
    | succ n => simpa using ih n

/-- Setting a slot leaves every other read unchanged. -/
theorem getD_set_ne (l : List (Option α)) (h x : Nat) (v : Option α) (hne : x ≠ h) :
    (l.set h v).getD x none = l.getD x none := by
  induction l generalizing h x with
  | nil => simp
  | cons a tl ih =>
    cases h with
    | zero =>
      cases x with
      | zero => exact absurd rfl hne
      | succ m => simp
    | succ n =>
      cases x with
      | zero => simp
      | succ m =>
        simpa using ih n m (fun hc => hne (by rw [hc]))

/-- Taking a slot tombstones exactly that slot. -/
theorem get?_takeAt_self (m : FileMap T) (h : Nat) : (m.takeAt h).get? h = none := by
  show (m.data.set h none).getD h none = none
  exact getD_set_self m.data h

/-- Taking a slot leaves every other slot unchanged. -/
theorem get?_takeAt_ne (m : FileMap T) (h x : Nat) (hne : x ≠ h) :
    (m.takeAt h).get? x = m.get? x := by
  show (m.data.set h none).getD x none = m.data.getD x none
  exact getD_set_ne m.data h x none hne

/-- Taking a slot keeps the slot count. -/
theorem takeAt_length (m : FileMap T) (h : Nat) :
    (m.takeAt h).data.length = m.data.length := by
  simp [FileMap.takeAt]

/-! ### Stage-6 helper lemmas: list plumbing -/

/-- Pointwise-equal functions give equal filterMaps. -/
theorem filterMapCongrMem {l : List α} {f g : α → Option β}
    (h : ∀ a ∈ l, f a = g a) : l.filterMap f = l.filterMap g := by
  induction l with
  | nil => rfl
  | cons a tl ih =>
    simp only [List.filterMap_cons, h a (List.mem_cons_self _ _)]
    cases g a <;>
      rw [ih (fun b hb => h b (List.mem_cons_of_mem a hb))]

/-- Pointwise-equal functions give equal flat maps. -/
theorem flatMapCongrMem {l : List α} {f g : α → List β}
    (h : ∀ a ∈ l, f a = g a) : l.flatMap f = l.flatMap g := by
  induction l with
  | nil => rfl
  | cons a tl ih =>
    simp only [List.flatMap_cons]
    rw [h a (List.mem_cons_self _ _),
      ih (fun b hb => h b (List.mem_cons_of_mem a hb))]

/-- A flat map over a filtered list is a sublist of the full flat map. -/
theorem flatMap_filter_sublist (l : List α) (p : α → Bool) (f : α → List β) :
    ((l.filter p).flatMap f).Sublist (l.flatMap f) := by
  induction l with
  | nil => simp
  | cons a tl ih =>
    by_cases hp : p a = true
    · simp only [List.filter_cons, hp, if_true, List.flatMap_cons]
      exact ih.append_left (f a)
    · simp only [List.filter_cons, hp, if_false, List.flatMap_cons]
      exact ih.trans (List.sublist_append_right (f a) _)

/-- In a duplicate-free flat map over a duplicate-free list, the chunks of
two distinct elements are disjoint. -/
theorem flatMap_nodup_pair {f : α → List β} {a b : α} {x : β} (hab : a ≠ b)
    (hxa : x ∈ f a) :
    ∀ {l : List α}, l.Nodup → (l.flatMap f).Nodup → a ∈ l → b ∈ l → x ∉ f b := by
  intro l
  induction l with
  | nil => intro _ _ ha; cases ha
  | cons c tl ih =>
    intro hl hnd ha hb
    rw [List.flatMap_cons, List.nodup_append] at hnd
    rw [List.nodup_cons] at hl
    rcases List.mem_cons.mp ha with rfl | ha2
    · rcases List.mem_cons.mp hb with rfl | hb2
      · exact absurd rfl hab
      · intro hxb
        exact hnd.2.2 hxa (List.mem_flatMap.mpr ⟨b, hb2, hxb⟩)
    · rcases List.mem_cons.mp hb with rfl | hb2
      · intro hxb
        exact hnd.2.2 hxb (List.mem_flatMap.mpr ⟨a, ha2, hxa⟩)
      · exact ih hl.2 hnd.2.1 ha2 hb2

/-- A chunk of a duplicate-free flat map is duplicate-free. -/
theorem flatMap_nodup_chunk {f : α → List β} :
    ∀ {l : List α}, (l.flatMap f).Nodup → ∀ {a : α}, a ∈ l → (f a).Nodup := by
  intro l
  induction l with
  | nil => intro _ a ha; cases ha
  | cons c tl ih =>
    intro hnd a ha
    rw [List.flatMap_cons, List.nodup_append] at hnd
    rcases List.mem_cons.mp ha with rfl | ha2
    · exact hnd.1
    · exact ih hnd.2.1 ha2

/-- `List.contains` agrees with membership on naturals. -/
theorem containsIffMem (l : List Nat) (x : Nat) : l.contains x = true ↔ x ∈ l := by
  induction l with
  | nil => simp
  | cons a tl ih =>
    rw [List.contains_cons, List.mem_cons, Bool.or_eq_true, ih, beq_iff_eq]

/-! ### Stage-6 helper lemmas: per-entry moves -/

/-- The source paths of one entry's move commands: duplicates, media,
initial sidecar. -/
theorem moveDeps_src (msrc : String) (m : Media) (sc : Option SidecarInitial)
    (ds : List SidecarDupe) :
    (move_media_with_deps msrc m sc ds).map MoveCmd.src
      = ds.map (fun d => d.metadata.source_file)
        ++ [m.metadata.source_file]
        ++ (match sc with
            | some sc0 => [sc0.metadata.source_file]
            | none => []) := by
  unfold move_media_with_deps
  cases sc <;> simp [List.map_map, Function.comp]

/-- Taking a duplicate-free list of live dupe handles succeeds, yields
their values in order, and tombstones exactly those slots. -/
theorem takeDupesList_ok :
    ∀ (hs : List Nat) (dupes : FileMap SidecarDupe),
    hs.Nodup →
    (∀ x ∈ hs, (dupes.get? x).isSome = true) →
    ∃ ds dupes1,
      takeDupesList dupes hs = .ok (ds, dupes1) ∧
      ds.map (fun d => d.metadata.source_file)
        = hs.filterMap (fun x => (dupes.get? x).map (fun d => d.metadata.source_file)) ∧
      ∀ x, dupes1.get? x = if x ∈ hs then none else dupes.get? x := by
  intro hs
  induction hs with
  | nil =>
    intro dupes _ _
    exact ⟨[], dupes, rfl, by simp, fun x => by simp⟩
  | cons h rest ih =>
    intro dupes hnd hlive
    rw [List.nodup_cons] at hnd
    have hd0 := hlive h (List.mem_cons_self _ _)
    cases hget : dupes.get? h with
    | none => rw [hget] at hd0; cases hd0
    | some d =>
      have hlive1 : ∀ x ∈ rest, ((dupes.takeAt h).get? x).isSome = true := by
        intro x hx
        rw [get?_takeAt_ne _ _ _ (fun hc => hnd.1 (by rw [← hc]; exact hx))]
        exact hlive x (List.mem_cons_of_mem _ hx)
      obtain ⟨ds, dupes1, hrun, hmap, hchar⟩ := ih (dupes.takeAt h) hnd.2 hlive1
      refine ⟨d :: ds, dupes1, ?_, ?_, ?_⟩
      · simp only [takeDupesList, hget, hrun]
      · simp only [List.map_cons, hmap, List.filterMap_cons, hget]
        congr 1
        exact filterMapCongrMem (fun x hx => by
          rw [get?_takeAt_ne _ _ _ (fun hc => hnd.1 (by rw [← hc]; exact hx))])
      · intro x
        rw [hchar x]
        by_cases hx : x ∈ rest
        · simp [hx, List.mem_cons]
        · by_cases hxh : x = h
          · subst hxh
            simp [hx, get?_takeAt_self]
          · simp only [List.mem_cons]
            rw [if_neg hx, if_neg (by tauto), get?_takeAt_ne _ _ _ hxh]

/-! ### Stage-6 helper lemmas: the heap's best member -/

/-- The fold that realizes `peek` returns the seed or a list member. -/
theorem foldlMax_mem (xs : List LivePhotoLinkMetadata) (b : LivePhotoLinkMetadata) :
    xs.foldl (fun best a => if LivePhotoLinkMetadata.cmp best a = .lt then a else best) b = b
      ∨ xs.foldl (fun best a => if LivePhotoLinkMetadata.cmp best a = .lt then a else best) b ∈ xs := by
  induction xs generalizing b with
  | nil => left; rfl
  | cons a tl ih =>
    rw [List.foldl_cons]
    rcases ih (if LivePhotoLinkMetadata.cmp b a = .lt then a else b) with h | h
    · rw [h]
      by_cases hc : LivePhotoLinkMetadata.cmp b a = .lt
      · right
        rw [if_pos hc]
        exact List.mem_cons_self _ _
      · left
        rw [if_neg hc]
    · right
      exact List.mem_cons_of_mem _ h

/-- A successful peek returns a member of the heap. -/
theorem heapPeek_mem {l : List LivePhotoLinkMetadata} {e : LivePhotoLinkMetadata}
    (h : heapPeek l = some e) : e ∈ l := by
  match l with
  | [] => cases h
  | x :: xs =>
    simp only [heapPeek, Option.some.injEq] at h
    rcases foldlMax_mem xs x with h2 | h2
    · rw [← h, h2]
      exact List.mem_cons_self _ _
    · rw [← h]
      exact List.mem_cons_of_mem _ h2

/-- The best image of a group is one of the group's members. -/
theorem get_image_best_mem {l : LivePhotoLinker} {hm : Nat}
    (h : l.get_image_best = some hm) : hm ∈ groupMembers l := by
  unfold LivePhotoLinker.get_image_best at h
  cases hp : heapPeek l.images with
  | none => rw [hp] at h; cases h
  | some e =>
    rw [hp] at h
    have he : e.media_handle = hm := by simpa using h
    have hmem := heapPeek_mem hp
    show hm ∈ (l.drain).1
    unfold LivePhotoLinker.drain
    rw [← he]
    exact List.mem_map_of_mem _ (List.mem_append_left _ hmem)

/-- A group that is not leftover videos has a best image. -/
theorem get_image_best_of_not_leftover {l : LivePhotoLinker}
    (h : l.is_leftover_videos = false) : ∃ hm, l.get_image_best = some hm := by
  cases hg : l.get_image_best with
  | some hm => exact ⟨hm, rfl⟩
  | none =>
    unfold LivePhotoLinker.get_image_best heapPeek at hg
    unfold LivePhotoLinker.is_leftover_videos at h
    cases himg : l.images with
    | nil => rw [himg] at h; simp at h
    | cons x xs => rw [himg] at hg; simp at hg

/-! ### Stage-6 helper lemmas: spec congruence under untouched maps -/

/-- One entry's source paths depend on the sidecar maps only at the
handles the entry references. -/
theorem depSrcsRel_congr {sidecarsA sidecarsB : FileMap SidecarInitial}
    {dupesA dupesB : FileMap SidecarDupe} {m : Media}
    (hsc : ∀ y, m.sidecar = some y → sidecarsA.get? y = sidecarsB.get? y)
    (hdp : ∀ y ∈ m.dupes, dupesA.get? y = dupesB.get? y) :
    depSrcsRel sidecarsA dupesA m = depSrcsRel sidecarsB dupesB m := by
  unfold depSrcsRel
  congr 1
  · congr 1
    exact filterMapCongrMem (fun y hy => by rw [hdp y hy])
  · cases hms : m.sidecar with
    | none => rfl
    | some y =>
      simp only [Option.some_bind]
      rw [hsc y hms]

/-- One handle's source paths depend on the maps only at that handle and
the handles its media entry references. -/
theorem handleSpec_congr {mediaA mediaB : FileMap Media}
    {sidecarsA sidecarsB : FileMap SidecarInitial}
    {dupesA dupesB : FileMap SidecarDupe} {sm : Bool} {h : Nat}
    (hmed : mediaA.get? h = mediaB.get? h)
    (hsc : ∀ m, mediaB.get? h = some m → ∀ y, m.sidecar = some y →
      sidecarsA.get? y = sidecarsB.get? y)
    (hdp : ∀ m, mediaB.get? h = some m → ∀ y ∈ m.dupes,
      dupesA.get? y = dupesB.get? y) :
    handleSpec mediaA sidecarsA dupesA sm h = handleSpec mediaB sidecarsB dupesB sm h := by
  unfold handleSpec
  by_cases hsm : sm = true
  · rw [if_pos hsm, if_pos hsm, hmed]
    cases hget : mediaB.get? h with
    | none => rfl
    | some m => exact depSrcsRel_congr (hsc m hget) (hdp m hget)
  · rw [if_neg hsm, if_neg hsm]

/-- A leftover-videos group contributes no source paths. -/
theorem groupSpec_eq_leftover {media : FileMap Media}
    {sidecars : FileMap SidecarInitial} {dupes : FileMap SidecarDupe}
    {valid : List Nat} {force : Bool} {p : String × LivePhotoLinker}
    (hlv : p.2.is_leftover_videos = true) :
    groupSpecSrcs media sidecars dupes valid force p = [] := by
  unfold groupSpecSrcs
  rw [if_pos hlv]

/-- A group with a best image contributes the other members' paths and
then the best image's. -/
theorem groupSpec_eq_of_best {media : FileMap Media}
    {sidecars : FileMap SidecarInitial} {dupes : FileMap SidecarDupe}
    {valid : List Nat} {force : Bool} {p : String × LivePhotoLinker} {hm : Nat}
    (hlv : p.2.is_leftover_videos = false) (hb : p.2.get_image_best = some hm) :
    groupSpecSrcs media sidecars dupes valid force p
      = ((groupMembers p.2).filter (fun h => h != hm)).flatMap
          (handleSpec media sidecars dupes (force || valid.contains hm))
        ++ handleSpec media sidecars dupes (force || valid.contains hm) hm := by
  unfold groupSpecSrcs
  rw [if_neg (by rw [hlv]; exact Bool.false_ne_true), hb]

/-- One group's source paths depend on the maps only at the group's
members and the handles they reference. -/
theorem groupSpec_congr {mediaA mediaB : FileMap Media}
    {sidecarsA sidecarsB : FileMap SidecarInitial}
    {dupesA dupesB : FileMap SidecarDupe} (valid : List Nat) (force : Bool)
    (p : String × LivePhotoLinker)
    (hmed : p.2.is_leftover_videos = false → ∀ h ∈ groupMembers p.2,
      mediaA.get? h = mediaB.get? h)
    (hsc : p.2.is_leftover_videos = false → ∀ h ∈ groupMembers p.2,
      ∀ m, mediaB.get? h = some m →
      ∀ y, m.sidecar = some y → sidecarsA.get? y = sidecarsB.get? y)
    (hdp : p.2.is_leftover_videos = false → ∀ h ∈ groupMembers p.2,
      ∀ m, mediaB.get? h = some m →
      ∀ y ∈ m.dupes, dupesA.get? y = dupesB.get? y) :
    groupSpecSrcs mediaA sidecarsA dupesA valid force p
      = groupSpecSrcs mediaB sidecarsB dupesB valid force p := by
  by_cases hlv : p.2.is_leftover_videos = true
  · rw [groupSpec_eq_leftover hlv, groupSpec_eq_leftover hlv]
  · rw [Bool.not_eq_true] at hlv
    obtain ⟨hm, hb⟩ := get_image_best_of_not_leftover hlv
    have hmMem : hm ∈ groupMembers p.2 := get_image_best_mem hb
    rw [groupSpec_eq_of_best hlv hb, groupSpec_eq_of_best hlv hb]
    congr 1
    · refine flatMapCongrMem ?_
      intro h hh
      have hh2 := List.mem_of_mem_filter hh
      exact handleSpec_congr (hmed hlv h hh2) (hsc hlv h hh2) (hdp hlv h hh2)
    · exact handleSpec_congr (hmed hlv hm hmMem) (hsc hlv hm hmMem) (hdp hlv hm hmMem)

/-- The remaining-media spec depends on the sidecar maps only at handles
referenced by live slots. -/
theorem slotSpec_congr {sidecarsA sidecarsB : FileMap SidecarInitial}
    {dupesA dupesB : FileMap SidecarDupe} (valid : List Nat) (force : Bool) :
    ∀ (slots : List (Option Media)) (idx : Nat),
    (∀ q ∈ liveSlots idx slots,
      (∀ y, (q : Nat × Media).2.sidecar = some y → sidecarsA.get? y = sidecarsB.get? y) ∧
      (∀ y ∈ q.2.dupes, dupesA.get? y = dupesB.get? y)) →
    slotSpecSrcs sidecarsA dupesA valid force idx slots
      = slotSpecSrcs sidecarsB dupesB valid force idx slots := by
  intro slots
  induction slots with
  | nil => intro idx _; rfl
  | cons o rest ih =>
    intro idx hq
    cases o with
    | none =>
      simp only [slotSpecSrcs, liveSlots] at *
      exact ih (idx + 1) hq
    | some m =>
      simp only [slotSpecSrcs]
      have hmq := hq (idx, m) (by simp [liveSlots])
      congr 1
      · by_cases hcond : (force || valid.contains idx) = true
        · rw [if_pos hcond, if_pos hcond]
          exact depSrcsRel_congr hmq.1 hmq.2
        · rw [if_neg hcond, if_neg hcond]
      · exact ih (idx + 1) (fun q hq2 => hq q (by
          simp only [liveSlots, List.mem_cons]
          exact Or.inr hq2))

/-! ### Stage-6 helper lemmas: taking one entry -/

/-- Taking an entry's sidecar succeeds when the referenced handle is live,
tombstones exactly that handle, and returns the referenced value. -/
theorem take_sidecar_ok (m : Media) (sidecars : FileMap SidecarInitial)
    (hlive : ∀ y, m.sidecar = some y → (sidecars.get? y).isSome = true) :
    ∃ sc sidecars1,
      take_sidecar m sidecars = .ok (sc, sidecars1) ∧
      (∀ x, sidecars1.get? x =
        if x ∈ m.sidecar.toList then none else sidecars.get? x) ∧
      ((match sc with
        | some sc0 => [sc0.metadata.source_file]
        | none => ([] : List String))
        = match m.sidecar.bind sidecars.get? with
          | some sc0 => [sc0.metadata.source_file]
          | none => []) := by
  cases hms : m.sidecar with
  | none =>
    refine ⟨none, sidecars, ?_, ?_, ?_⟩
    · unfold take_sidecar
      rw [hms]
    · intro x
      simp
    · rfl
  | some y =>
    have hy := hlive y hms
    cases hget : sidecars.get? y with
    | none => rw [hget] at hy; cases hy
    | some sc0 =>
      refine ⟨some sc0, sidecars.takeAt y, ?_, ?_, ?_⟩
      · simp only [take_sidecar, hms, hget]
      · intro x
        simp only [Option.toList]
        by_cases hxy : x = y
        · subst hxy
          rw [get?_takeAt_self, if_pos (List.mem_singleton.mpr rfl)]
        · rw [get?_takeAt_ne _ _ _ hxy,
            if_neg (fun hc => hxy (List.mem_singleton.mp hc))]
      · simp only [Option.some_bind, hget]

/-- The specified paths of one handle when the move flag is set and the
handle is live. -/
theorem handleSpec_pos {media : FileMap Media} {sidecars : FileMap SidecarInitial}
    {dupes : FileMap SidecarDupe} {sm : Bool} {h : Nat} {m : Media}
    (hgm : media.get? h = some m) (hsm : sm = true) :
    handleSpec media sidecars dupes sm h = depSrcsRel sidecars dupes m := by
  unfold handleSpec
  rw [if_pos hsm, hgm]

/-- The specified paths of one handle when the move flag is clear. -/
theorem handleSpec_neg {media : FileMap Media} {sidecars : FileMap SidecarInitial}
    {dupes : FileMap SidecarDupe} {sm : Bool} {h : Nat} (hsm : sm = false) :
    handleSpec media sidecars dupes sm h = [] := by
  unfold handleSpec
  rw [if_neg (by rw [hsm]; exact Bool.false_ne_true)]

/-- The inner loop of the Live-Photo phase, run on handles whose non-skipped
members are live, duplicate-free and reference live, duplicate-free sidecar
and dupe handles: it succeeds, emits exactly the specified source paths, and
tombstones exactly the consumed slots. -/
theorem processOthers_spec (hm : Nat) (msrc : String) (sm : Bool) :
    ∀ (hs : List Nat) (media : FileMap Media) (sidecars : FileMap SidecarInitial)
      (dupes : FileMap SidecarDupe),
    (hs.filter (fun x => x != hm)).Nodup →
    (∀ h ∈ hs.filter (fun x => x != hm), (media.get? h).isSome = true) →
    ((hs.filter (fun x => x != hm)).flatMap (sidecarHandleOf media)).Nodup →
    (∀ x ∈ (hs.filter (fun x => x != hm)).flatMap (sidecarHandleOf media),
      (sidecars.get? x).isSome = true) →
    ((hs.filter (fun x => x != hm)).flatMap (dupeHandlesOf media)).Nodup →
    (∀ x ∈ (hs.filter (fun x => x != hm)).flatMap (dupeHandlesOf media),
      (dupes.get? x).isSome = true) →
    ∃ cmds media1 sidecars1 dupes1,
      processOthers hm msrc sm media sidecars dupes hs
        = .ok (cmds, media1, sidecars1, dupes1) ∧
      cmds.map MoveCmd.src
        = (hs.filter (fun x => x != hm)).flatMap (handleSpec media sidecars dupes sm) ∧
      (∀ x, media1.get? x =
        if x ∈ hs.filter (fun x0 => x0 != hm) then none else media.get? x) ∧
      (∀ x, sidecars1.get? x =
        if x ∈ (hs.filter (fun x0 => x0 != hm)).flatMap (sidecarHandleOf media) then none
        else sidecars.get? x) ∧
      (∀ x, dupes1.get? x =
        if x ∈ (hs.filter (fun x0 => x0 != hm)).flatMap (dupeHandlesOf media) then none
        else dupes.get? x) ∧
      media1.data.length = media.data.length := by
  intro hs
  induction hs with
  | nil =>
    intro media sidecars dupes _ _ _ _ _ _
    exact ⟨[], media, sidecars, dupes, rfl, by simp, fun x => by simp, fun x => by simp,
      fun x => by simp, rfl⟩
  | cons h rest ih =>
    intro media sidecars dupes hnd hlive hsnd hslive hdnd hdlive
    by_cases hch : h = hm
    · have hfc : List.filter (fun x => x != hm) (h :: rest)
          = rest.filter (fun x => x != hm) := by
        simp [List.filter_cons, hch]
      rw [hfc] at hnd hlive hsnd hslive hdnd hdlive ⊢
      obtain ⟨cmds, media1, sidecars1, dupes1, hrun, hmap, hMed, hSc, hDup, hlen⟩ :=
        ih media sidecars dupes hnd hlive hsnd hslive hdnd hdlive
      refine ⟨cmds, media1, sidecars1, dupes1, ?_, hmap, hMed, hSc, hDup, hlen⟩
      simp only [processOthers, if_pos hch]
      exact hrun
    · have hfc : List.filter (fun x => x != hm) (h :: rest)
          = h :: rest.filter (fun x => x != hm) := by
        simp [List.filter_cons, hch]
      rw [hfc] at hnd hlive hsnd hslive hdnd hdlive ⊢
      rw [List.nodup_cons] at hnd
      have hgm0 := hlive h (List.mem_cons_self _ _)
      cases hgm : media.get? h with
      | none => rw [hgm] at hgm0; cases hgm0
      | some m =>
      have hshf : sidecarHandleOf media h = m.sidecar.toList := by
        unfold sidecarHandleOf
        rw [hgm]
      have hdhf : dupeHandlesOf media h = m.dupes := by
        unfold dupeHandlesOf
        rw [hgm]
      rw [List.flatMap_cons, hshf] at hsnd hslive
      rw [List.flatMap_cons, hdhf] at hdnd hdlive
      rw [List.nodup_append] at hsnd hdnd
      obtain ⟨sc, sidecars1, hscrun, hscchar, hscpaths⟩ :=
        take_sidecar_ok m sidecars (fun y hy =>
          hslive y (List.mem_append.mpr (Or.inl (by
            rw [hy]
            exact List.mem_singleton.mpr rfl))))
      obtain ⟨ds, dupes1, hdrun, hdmap, hdchar⟩ :=
        takeDupesList_ok m.dupes dupes hdnd.1
          (fun x hx => hdlive x (List.mem_append.mpr (Or.inl hx)))
      have htm : take_media h media = .ok (m, media.takeAt h) := by
        unfold take_media
        rw [hgm]
      have htd : take_dupes m dupes = .ok (ds, dupes1) := by
        unfold take_dupes
        exact hdrun
      have hmedEq : ∀ x ∈ rest.filter (fun x0 => x0 != hm),
          (media.takeAt h).get? x = media.get? x := fun x hx =>
        get?_takeAt_ne _ _ _ (fun hc => hnd.1 (by rw [← hc]; exact hx))
      have hbindS : (rest.filter (fun x0 => x0 != hm)).flatMap
            (sidecarHandleOf (media.takeAt h))
          = (rest.filter (fun x0 => x0 != hm)).flatMap (sidecarHandleOf media) :=
        flatMapCongrMem (fun x hx => by
          unfold sidecarHandleOf
          rw [hmedEq x hx])
      have hbindD : (rest.filter (fun x0 => x0 != hm)).flatMap
            (dupeHandlesOf (media.takeAt h))
          = (rest.filter (fun x0 => x0 != hm)).flatMap (dupeHandlesOf media) :=
        flatMapCongrMem (fun x hx => by
          unfold dupeHandlesOf
          rw [hmedEq x hx])
      have hscF : ∀ x ∈ (rest.filter (fun x0 => x0 != hm)).flatMap (sidecarHandleOf media),
          sidecars1.get? x = sidecars.get? x := by
        intro x hx
        rw [hscchar x, if_neg (fun hc => hsnd.2.2 hc hx)]
      have hdpF : ∀ x ∈ (rest.filter (fun x0 => x0 != hm)).flatMap (dupeHandlesOf media),
          dupes1.get? x = dupes.get? x := by
        intro x hx
        rw [hdchar x, if_neg (fun hc => hdnd.2.2 hc hx)]
      obtain ⟨cmdsR, media2, sidecars2, dupes2, hrunR, hmapR, hMedR, hScR, hDupR, hlenR⟩ :=
        ih (media.takeAt h) sidecars1 dupes1 hnd.2
          (fun x hx => by
            rw [hmedEq x hx]
            exact hlive x (List.mem_cons_of_mem _ hx))
          (by rw [hbindS]; exact hsnd.2.1)
          (by
            rw [hbindS]
            intro x hx
            rw [hscF x hx]
            exact hslive x (List.mem_append.mpr (Or.inr hx)))
          (by rw [hbindD]; exact hdnd.2.1)
          (by
            rw [hbindD]
            intro x hx
            rw [hdpF x hx]
            exact hdlive x (List.mem_append.mpr (Or.inr hx)))
      refine ⟨(if sm = true then move_media_with_deps msrc m sc ds else []) ++ cmdsR,
        media2, sidecars2, dupes2, ?_, ?_, ?_, ?_, ?_, ?_⟩
      · simp only [processOthers, if_neg hch, htm, hscrun, htd, hrunR]
      · rw [List.map_append, List.flatMap_cons, hmapR]
        congr 1
        · by_cases hsm : sm = true
          · rw [if_pos hsm, handleSpec_pos hgm hsm, moveDeps_src]
            unfold depSrcsRel
            rw [hdmap, hscpaths]
          · rw [Bool.not_eq_true] at hsm
            rw [if_neg (by rw [hsm]; exact Bool.false_ne_true), handleSpec_neg hsm]
            rfl
        · refine flatMapCongrMem ?_
          intro x hx
          refine handleSpec_congr (hmedEq x hx) ?_ ?_
          · intro m2 hm2 y hy
            refine hscF y ?_
            refine List.mem_flatMap.mpr ⟨x, hx, ?_⟩
            simp only [sidecarHandleOf, hm2, hy, Option.toList]
            exact List.mem_singleton.mpr rfl
          · intro m2 hm2 y hy
            refine hdpF y ?_
            refine List.mem_flatMap.mpr ⟨x, hx, ?_⟩
            simp only [dupeHandlesOf, hm2]
            exact hy
      · intro x
        rw [hMedR x]
        by_cases hxF : x ∈ rest.filter (fun x0 => x0 != hm)
        · rw [if_pos hxF, if_pos (List.mem_cons_of_mem _ hxF)]
        · rw [if_neg hxF]
          by_cases hxh : x = h
          · subst hxh
            rw [if_pos (List.mem_cons_self _ _)]
            exact get?_takeAt_self media x
          · rw [get?_takeAt_ne _ _ _ hxh, if_neg (fun hc => by
              rcases List.mem_cons.mp hc with hc1 | hc2
              · exact hxh hc1
              · exact hxF hc2)]
      · intro x
        rw [hScR x, hbindS, List.flatMap_cons, hshf]
        by_cases hxF : x ∈ (rest.filter (fun x0 => x0 != hm)).flatMap (sidecarHandleOf media)
        · rw [if_pos hxF, if_pos (List.mem_append.mpr (Or.inr hxF))]
        · rw [if_neg hxF, hscchar x]
          by_cases hxm : x ∈ m.sidecar.toList
          · rw [if_pos hxm, if_pos (List.mem_append.mpr (Or.inl hxm))]
          · rw [if_neg hxm, if_neg (fun hc => by
              rcases List.mem_append.mp hc with h1 | h2
              · exact hxm h1
              · exact hxF h2)]
      · intro x
        rw [hDupR x, hbindD, List.flatMap_cons, hdhf]
        by_cases hxF : x ∈ (rest.filter (fun x0 => x0 != hm)).flatMap (dupeHandlesOf media)
        · rw [if_pos hxF, if_pos (List.mem_append.mpr (Or.inr hxF))]
        · rw [if_neg hxF, hdchar x]
          by_cases hxm : x ∈ m.dupes
          · rw [if_pos hxm, if_pos (List.mem_append.mpr (Or.inl hxm))]
          · rw [if_neg hxm, if_neg (fun hc => by
              rcases List.mem_append.mp hc with h1 | h2
              · exact hxm h1
              · exact hxF h2)]
      · rw [hlenR, takeAt_length]

/-- The Live-Photo phase, run on groups whose members are live,
duplicate-free and reference live, duplicate-free sidecar and dupe
handles: it succeeds, emits exactly the per-group specified source paths,
and tombstones exactly the consumed slots. -/
theorem phaseA_spec (valid : List Nat) (force : Bool) :
    ∀ (gs : List (String × LivePhotoLinker)) (media : FileMap Media)
      (sidecars : FileMap SidecarInitial) (dupes : FileMap SidecarDupe),
    (pmOf gs).Nodup →
    (∀ h ∈ pmOf gs, (media.get? h).isSome = true) →
    ((pmOf gs).flatMap (sidecarHandleOf media)).Nodup →
    (∀ x ∈ (pmOf gs).flatMap (sidecarHandleOf media), (sidecars.get? x).isSome = true) →
    ((pmOf gs).flatMap (dupeHandlesOf media)).Nodup →
    (∀ x ∈ (pmOf gs).flatMap (dupeHandlesOf media), (dupes.get? x).isSome = true) →
    ∃ cmds media1 sidecars1 dupes1,
      phaseA valid force media sidecars dupes gs = .ok (cmds, media1, sidecars1, dupes1) ∧
      cmds.map MoveCmd.src
        = gs.flatMap (groupSpecSrcs media sidecars dupes valid force) ∧
      (∀ x, media1.get? x = if x ∈ pmOf gs then none else media.get? x) ∧
      (∀ x, sidecars1.get? x =
        if x ∈ (pmOf gs).flatMap (sidecarHandleOf media) then none else sidecars.get? x) ∧
      (∀ x, dupes1.get? x =
        if x ∈ (pmOf gs).flatMap (dupeHandlesOf media) then none else dupes.get? x) ∧
      media1.data.length = media.data.length := by
  intro gs
  induction gs with
  | nil =>
    intro media sidecars dupes _ _ _ _ _ _
    exact ⟨[], media, sidecars, dupes, rfl, rfl, fun x => by simp [pmOf],
      fun x => by simp [pmOf], fun x => by simp [pmOf], rfl⟩
  | cons g gs ih =>
    intro media sidecars dupes hnd hlive hsnd hslive hdnd hdlive
    obtain ⟨id, link⟩ := g
    by_cases hlv : link.is_leftover_videos = true
    · have hpm : pmOf ((id, link) :: gs) = pmOf gs := by
        unfold pmOf
        rw [List.filter_cons, if_neg (by simp [hlv])]
      rw [hpm] at hnd hlive hsnd hslive hdnd hdlive ⊢
      obtain ⟨cmds, media1, sidecars1, dupes1, hrun, hmap, hMed, hSc, hDup, hlen⟩ :=
        ih media sidecars dupes hnd hlive hsnd hslive hdnd hdlive
      refine ⟨cmds, media1, sidecars1, dupes1, ?_, ?_, hMed, hSc, hDup, hlen⟩
      · have hstep : phaseA valid force media sidecars dupes ((id, link) :: gs)
            = phaseA valid force media sidecars dupes gs := by
          simp only [phaseA]
          rw [if_pos hlv]
        rw [hstep]
        exact hrun
      · rw [List.flatMap_cons, groupSpec_eq_leftover hlv, List.nil_append]
        exact hmap
    · rw [Bool.not_eq_true] at hlv
      have hpm : pmOf ((id, link) :: gs) = groupMembers link ++ pmOf gs := by
        unfold pmOf
        rw [List.filter_cons, if_pos (by simp [hlv]), List.flatMap_cons]
      rw [hpm] at hnd hlive hsnd hslive hdnd hdlive ⊢
      rw [List.flatMap_append] at hsnd hslive
      rw [List.flatMap_append] at hdnd hdlive
      rw [List.flatMap_append, List.flatMap_append]
      rw [List.nodup_append] at hnd hsnd hdnd
      obtain ⟨hm, hb⟩ := get_image_best_of_not_leftover hlv
      have hmM : hm ∈ groupMembers link := get_image_best_mem hb
      have hgm0 := hlive hm (List.mem_append.mpr (Or.inl hmM))
      cases hgm : media.get? hm with
      | none => rw [hgm] at hgm0; cases hgm0
      | some imageMain =>
      have hshm : sidecarHandleOf media hm = imageMain.sidecar.toList := by
        simp only [sidecarHandleOf, hgm]
      have hdhm : dupeHandlesOf media hm = imageMain.dupes := by
        simp only [dupeHandlesOf, hgm]
      have htm : take_media hm media = .ok (imageMain, media.takeAt hm) := by
        unfold take_media
        rw [hgm]
      obtain ⟨scMain, sidecarsM, hscrunM, hsccharM, hscpathsM⟩ :=
        take_sidecar_ok imageMain sidecars (fun y hy =>
          hslive y (List.mem_append.mpr (Or.inl (List.mem_flatMap.mpr ⟨hm, hmM, by
            rw [hshm, hy]
            exact List.mem_singleton.mpr rfl⟩))))
      have hdnodupM : imageMain.dupes.Nodup := by
        have h0 := flatMap_nodup_chunk hdnd.1 hmM
        rw [hdhm] at h0
        exact h0
      obtain ⟨dsMain, dupesM, hdrunM, hdmapM, hdcharM⟩ :=
        takeDupesList_ok imageMain.dupes dupes hdnodupM
          (fun x hx => hdlive x (List.mem_append.mpr (Or.inl (List.mem_flatMap.mpr
            ⟨hm, hmM, by rw [hdhm]; exact hx⟩))))
      have htdM : take_dupes imageMain dupes = .ok (dsMain, dupesM) := by
        unfold take_dupes
        exact hdrunM
      have hmedEq : ∀ x ∈ (groupMembers link).filter (fun x0 => x0 != hm),
          (media.takeAt hm).get? x = media.get? x := by
        intro x hx
        have hxne : x ≠ hm := by simpa using (List.mem_filter.mp hx).2
        exact get?_takeAt_ne _ _ _ hxne
      have hbindSO : ((groupMembers link).filter (fun x0 => x0 != hm)).flatMap
            (sidecarHandleOf (media.takeAt hm))
          = ((groupMembers link).filter (fun x0 => x0 != hm)).flatMap
            (sidecarHandleOf media) :=
        flatMapCongrMem (fun x hx => by
          unfold sidecarHandleOf
          rw [hmedEq x hx])
      have hbindDO : ((groupMembers link).filter (fun x0 => x0 != hm)).flatMap
            (dupeHandlesOf (media.takeAt hm))
          = ((groupMembers link).filter (fun x0 => x0 != hm)).flatMap
            (dupeHandlesOf media) :=
        flatMapCongrMem (fun x hx => by
          unfold dupeHandlesOf
          rw [hmedEq x hx])
      have hscFM : ∀ x ∈ ((groupMembers link).filter (fun x0 => x0 != hm)).flatMap
            (sidecarHandleOf media),
          sidecarsM.get? x = sidecars.get? x := by
        intro x hx
        obtain ⟨x0, hx0F, hxchunk⟩ := List.mem_flatMap.mp hx
        have hx0M := List.mem_of_mem_filter hx0F
        have hx0ne : x0 ≠ hm := by simpa using (List.mem_filter.mp hx0F).2
        have hnot : x ∉ sidecarHandleOf media hm :=
          flatMap_nodup_pair hx0ne hxchunk hnd.1 hsnd.1 hx0M hmM
        rw [hsccharM x, if_neg (fun hc => hnot (by rw [hshm]; exact hc))]
      have hdpFM : ∀ x ∈ ((groupMembers link).filter (fun x0 => x0 != hm)).flatMap
            (dupeHandlesOf media),
          dupesM.get? x = dupes.get? x := by
        intro x hx
        obtain ⟨x0, hx0F, hxchunk⟩ := List.mem_flatMap.mp hx
        have hx0M := List.mem_of_mem_filter hx0F
        have hx0ne : x0 ≠ hm := by simpa using (List.mem_filter.mp hx0F).2
        have hnot : x ∉ dupeHandlesOf media hm :=
          flatMap_nodup_pair hx0ne hxchunk hnd.1 hdnd.1 hx0M hmM
        rw [hdcharM x, if_neg (fun hc => hnot (by rw [hdhm]; exact hc))]
      obtain ⟨cmdsO, media2, sidecars2, dupes2, hrunO, hmapO, hMedO, hScO, hDupO, hlenO⟩ :=
        processOthers_spec hm (pick_source imageMain scMain)
          (force || valid.contains hm) (groupMembers link)
          (media.takeAt hm) sidecarsM dupesM
          (hnd.1.filter _)
          (fun x hx => by
            rw [hmedEq x hx]
            exact hlive x (List.mem_append.mpr (Or.inl (List.mem_of_mem_filter hx))))
          (by
            rw [hbindSO]
            exact List.Nodup.sublist (flatMap_filter_sublist _ _ _) hsnd.1)
          (by
            rw [hbindSO]
            intro x hx
            rw [hscFM x hx]
            exact hslive x (List.mem_append.mpr (Or.inl
              ((flatMap_filter_sublist _ _ _).subset hx))))
          (by
            rw [hbindDO]
            exact List.Nodup.sublist (flatMap_filter_sublist _ _ _) hdnd.1)
          (by
            rw [hbindDO]
            intro x hx
            rw [hdpFM x hx]
            exact hdlive x (List.mem_append.mpr (Or.inl
              ((flatMap_filter_sublist _ _ _).subset hx))))
      have hMed2 : ∀ x, media2.get? x =
          if x ∈ groupMembers link then none else media.get? x := by
        intro x
        rw [hMedO x]
        by_cases hxM : x ∈ groupMembers link
        · rw [if_pos hxM]
          by_cases hxhm : x = hm
          · subst hxhm
            rw [if_neg (fun hc => by simpa using (List.mem_filter.mp hc).2),
              get?_takeAt_self]
          · rw [if_pos (List.mem_filter.mpr ⟨hxM, by simpa using hxhm⟩)]
        · rw [if_neg hxM, if_neg (fun hc => hxM (List.mem_of_mem_filter hc)),
            get?_takeAt_ne _ _ _ (fun hc => hxM (by rw [hc]; exact hmM))]
      have hSc2 : ∀ x, sidecars2.get? x =
          if x ∈ (groupMembers link).flatMap (sidecarHandleOf media) then none
          else sidecars.get? x := by
        intro x
        rw [hScO x, hbindSO]
        by_cases hxF : x ∈ ((groupMembers link).filter (fun x0 => x0 != hm)).flatMap
            (sidecarHandleOf media)
        · rw [if_pos hxF, if_pos ((flatMap_filter_sublist _ _ _).subset hxF)]
        · rw [if_neg hxF, hsccharM x]
          by_cases hxm : x ∈ imageMain.sidecar.toList
          · rw [if_pos hxm,
              if_pos (List.mem_flatMap.mpr ⟨hm, hmM, by rw [hshm]; exact hxm⟩)]
          · have hno : x ∉ (groupMembers link).flatMap (sidecarHandleOf media) := by
              intro hc
              obtain ⟨x0, hx0M, hxchunk⟩ := List.mem_flatMap.mp hc
              by_cases hx0hm : x0 = hm
              · subst hx0hm
                exact hxm (by rw [← hshm]; exact hxchunk)
              · exact hxF (List.mem_flatMap.mpr ⟨x0,
                  List.mem_filter.mpr ⟨hx0M, by simpa using hx0hm⟩, hxchunk⟩)
            rw [if_neg hxm, if_neg hno]
      have hDup2 : ∀ x, dupes2.get? x =
          if x ∈ (groupMembers link).flatMap (dupeHandlesOf media) then none
          else dupes.get? x := by
        intro x
        rw [hDupO x, hbindDO]
        by_cases hxF : x ∈ ((groupMembers link).filter (fun x0 => x0 != hm)).flatMap
            (dupeHandlesOf media)
        · rw [if_pos hxF, if_pos ((flatMap_filter_sublist _ _ _).subset hxF)]
        · rw [if_neg hxF, hdcharM x]
          by_cases hxm : x ∈ imageMain.dupes
          · rw [if_pos hxm,
              if_pos (List.mem_flatMap.mpr ⟨hm, hmM, by rw [hdhm]; exact hxm⟩)]
          · have hno : x ∉ (groupMembers link).flatMap (dupeHandlesOf media) := by
              intro hc
              obtain ⟨x0, hx0M, hxchunk⟩ := List.mem_flatMap.mp hc
              by_cases hx0hm : x0 = hm
              · subst hx0hm
                exact hxm (by rw [← hdhm]; exact hxchunk)
              · exact hxF (List.mem_flatMap.mpr ⟨x0,
                  List.mem_filter.mpr ⟨hx0M, by simpa using hx0hm⟩, hxchunk⟩)
            rw [if_neg hxm, if_neg hno]
      have hmedR : ∀ x ∈ pmOf gs, media2.get? x = media.get? x := by
        intro x hx
        rw [hMed2 x, if_neg (fun hc => hnd.2.2 hc hx)]
      have hbindRS : (pmOf gs).flatMap (sidecarHandleOf media2)
          = (pmOf gs).flatMap (sidecarHandleOf media) :=
        flatMapCongrMem (fun x hx => by
          unfold sidecarHandleOf
          rw [hmedR x hx])
      have hbindRD : (pmOf gs).flatMap (dupeHandlesOf media2)
          = (pmOf gs).flatMap (dupeHandlesOf media) :=
        flatMapCongrMem (fun x hx => by
          unfold dupeHandlesOf
          rw [hmedR x hx])
      have hscR2 : ∀ x ∈ (pmOf gs).flatMap (sidecarHandleOf media),
          sidecars2.get? x = sidecars.get? x := by
        intro x hx
        rw [hSc2 x, if_neg (fun hc => hsnd.2.2 hc hx)]
      have hdpR2 : ∀ x ∈ (pmOf gs).flatMap (dupeHandlesOf media),
          dupes2.get? x = dupes.get? x := by
        intro x hx
        rw [hDup2 x, if_neg (fun hc => hdnd.2.2 hc hx)]
      obtain ⟨cmdsR, media3, sidecars3, dupes3, hrunR, hmapR, hMedR, hScR, hDupR, hlenR⟩ :=
        ih media2 sidecars2 dupes2 hnd.2.1
          (fun x hx => by
            rw [hmedR x hx]
            exact hlive x (List.mem_append.mpr (Or.inr hx)))
          (by rw [hbindRS]; exact hsnd.2.1)
          (by
            rw [hbindRS]
            intro x hx
            rw [hscR2 x hx]
            exact hslive x (List.mem_append.mpr (Or.inr hx)))
          (by rw [hbindRD]; exact hdnd.2.1)
          (by
            rw [hbindRD]
            intro x hx
            rw [hdpR2 x hx]
            exact hdlive x (List.mem_append.mpr (Or.inr hx)))
      refine ⟨cmdsO ++ (if (force || valid.contains hm) = true then
          move_media_with_deps (pick_source imageMain scMain) imageMain scMain dsMain
        else []) ++ cmdsR, media3, sidecars3, dupes3, ?_, ?_, ?_, ?_, ?_, ?_⟩
      · have hdr : (link.drain).1 = groupMembers link := rfl
        simp only [phaseA, hlv, Bool.false_eq_true, if_false, hb, htm, hscrunM, htdM, hdr,
          hrunO, hrunR]
      · have hgsp := @groupSpec_eq_of_best media sidecars dupes valid force (id, link) hm hlv hb
        rw [List.flatMap_cons, hgsp, List.map_append, List.map_append]
        congr 1
        · congr 1
          · rw [hmapO]
            refine flatMapCongrMem ?_
            intro x hx
            refine handleSpec_congr (hmedEq x hx) ?_ ?_
            · intro m2 hm2 y hy
              refine hscFM y ?_
              refine List.mem_flatMap.mpr ⟨x, hx, ?_⟩
              simp only [sidecarHandleOf, hm2, hy, Option.toList]
              exact List.mem_singleton.mpr rfl
            · intro m2 hm2 y hy
              refine hdpFM y ?_
              refine List.mem_flatMap.mpr ⟨x, hx, ?_⟩
              simp only [dupeHandlesOf, hm2]
              exact hy
          · by_cases hsm : (force || valid.contains hm) = true
            · rw [if_pos hsm, handleSpec_pos hgm hsm, moveDeps_src]
              unfold depSrcsRel
              rw [hdmapM, hscpathsM]
            · rw [Bool.not_eq_true] at hsm
              rw [if_neg (by rw [hsm]; exact Bool.false_ne_true), handleSpec_neg hsm]
              rfl
        · rw [hmapR]
          refine flatMapCongrMem ?_
          intro p hp
          refine groupSpec_congr valid force p ?_ ?_ ?_
          · intro hplv h2 hh2
            have hpm2 : h2 ∈ pmOf gs := by
              unfold pmOf
              exact List.mem_flatMap.mpr ⟨p, List.mem_filter.mpr ⟨hp, by simp [hplv]⟩, hh2⟩
            exact hmedR h2 hpm2
          · intro hplv h2 hh2 m2 hm2 y hy
            have hpm2 : h2 ∈ pmOf gs := by
              unfold pmOf
              exact List.mem_flatMap.mpr ⟨p, List.mem_filter.mpr ⟨hp, by simp [hplv]⟩, hh2⟩
            refine hscR2 y ?_
            refine List.mem_flatMap.mpr ⟨h2, hpm2, ?_⟩
            simp only [sidecarHandleOf, hm2, hy, Option.toList]
            exact List.mem_singleton.mpr rfl
          · intro hplv h2 hh2 m2 hm2 y hy
            have hpm2 : h2 ∈ pmOf gs := by
              unfold pmOf
              exact List.mem_flatMap.mpr ⟨p, List.mem_filter.mpr ⟨hp, by simp [hplv]⟩, hh2⟩
            refine hdpR2 y ?_
            refine List.mem_flatMap.mpr ⟨h2, hpm2, ?_⟩
            simp only [dupeHandlesOf, hm2]
            exact hy
      · intro x
        rw [hMedR x]
        by_cases hx1 : x ∈ pmOf gs
        · rw [if_pos hx1, if_pos (List.mem_append.mpr (Or.inr hx1))]
        · rw [if_neg hx1, hMed2 x]
          by_cases hx2 : x ∈ groupMembers link
          · rw [if_pos hx2, if_pos (List.mem_append.mpr (Or.inl hx2))]
          · rw [if_neg hx2, if_neg (fun hc => by
              rcases List.mem_append.mp hc with h1 | h2
              · exact hx2 h1
              · exact hx1 h2)]
      · intro x
        rw [hScR x, hbindRS]
        by_cases hx1 : x ∈ (pmOf gs).flatMap (sidecarHandleOf media)
        · rw [if_pos hx1, if_pos (List.mem_append.mpr (Or.inr hx1))]
        · rw [if_neg hx1, hSc2 x]
          by_cases hx2 : x ∈ (groupMembers link).flatMap (sidecarHandleOf media)
          · rw [if_pos hx2, if_pos (List.mem_append.mpr (Or.inl hx2))]
          · rw [if_neg hx2, if_neg (fun hc => by
              rcases List.mem_append.mp hc with h1 | h2
              · exact hx2 h1
              · exact hx1 h2)]
      · intro x
        rw [hDupR x, hbindRD]
        by_cases hx1 : x ∈ (pmOf gs).flatMap (dupeHandlesOf media)
        · rw [if_pos hx1, if_pos (List.mem_append.mpr (Or.inr hx1))]
        · rw [if_neg hx1, hDup2 x]
          by_cases hx2 : x ∈ (groupMembers link).flatMap (dupeHandlesOf media)
          · rw [if_pos hx2, if_pos (List.mem_append.mpr (Or.inl hx2))]
          · rw [if_neg hx2, if_neg (fun hc => by
              rcases List.mem_append.mp hc with h1 | h2
              · exact hx2 h1
              · exact hx1 h2)]
      · rw [hlenR, hlenO, takeAt_length]

/-- The remaining-media phase, run on slots whose live entries reference
live, duplicate-free sidecar and dupe handles: it succeeds and emits
exactly the specified source paths. -/
theorem phaseB_spec (valid : List Nat) (force : Bool) :
    ∀ (slots : List (Option Media)) (idx : Nat) (sidecars : FileMap SidecarInitial)
      (dupes : FileMap SidecarDupe),
    ((liveSlots idx slots).flatMap (fun q => q.2.sidecar.toList)).Nodup →
    (∀ x ∈ (liveSlots idx slots).flatMap (fun q => q.2.sidecar.toList),
      (sidecars.get? x).isSome = true) →
    ((liveSlots idx slots).flatMap (fun q => q.2.dupes)).Nodup →
    (∀ x ∈ (liveSlots idx slots).flatMap (fun q => q.2.dupes),
      (dupes.get? x).isSome = true) →
    ∃ cmds, phaseB valid force idx sidecars dupes slots = .ok cmds ∧
      cmds.map MoveCmd.src = slotSpecSrcs sidecars dupes valid force idx slots := by
  intro slots
  induction slots with
  | nil =>
    intro idx sidecars dupes _ _ _ _
    exact ⟨[], rfl, rfl⟩
  | cons o rest ih =>
    intro idx sidecars dupes hsnd hslive hdnd hdlive
    cases o with
    | none => exact ih (idx + 1) sidecars dupes hsnd hslive hdnd hdlive
    | some m =>
      simp only [liveSlots, List.flatMap_cons] at hsnd hslive hdnd hdlive
      rw [List.nodup_append] at hsnd hdnd
      obtain ⟨sc, sidecars1, hscrun, hscchar, hscpaths⟩ :=
        take_sidecar_ok m sidecars (fun y hy =>
          hslive y (List.mem_append.mpr (Or.inl (by
            rw [hy]
            exact List.mem_singleton.mpr rfl))))
      obtain ⟨ds, dupes1, hdrun, hdmap, hdchar⟩ :=
        takeDupesList_ok m.dupes dupes hdnd.1
          (fun x hx => hdlive x (List.mem_append.mpr (Or.inl hx)))
      have htd : take_dupes m dupes = .ok (ds, dupes1) := by
        unfold take_dupes
        exact hdrun
      have hscF : ∀ x ∈ (liveSlots (idx + 1) rest).flatMap (fun q => q.2.sidecar.toList),
          sidecars1.get? x = sidecars.get? x := by
        intro x hx
        rw [hscchar x, if_neg (fun hc => hsnd.2.2 hc hx)]
      have hdpF : ∀ x ∈ (liveSlots (idx + 1) rest).flatMap (fun q => q.2.dupes),
          dupes1.get? x = dupes.get? x := by
        intro x hx
        rw [hdchar x, if_neg (fun hc => hdnd.2.2 hc hx)]
      obtain ⟨cmdsR, hrunR, hmapR⟩ := ih (idx + 1) sidecars1 dupes1 hsnd.2.1
        (fun x hx => by
          rw [hscF x hx]
          exact hslive x (List.mem_append.mpr (Or.inr hx)))
        hdnd.2.1
        (fun x hx => by
          rw [hdpF x hx]
          exact hdlive x (List.mem_append.mpr (Or.inr hx)))
      refine ⟨(if (force || valid.contains idx) = true then
          move_media_with_deps (pick_source m sc) m sc ds else []) ++ cmdsR, ?_, ?_⟩
      · simp only [phaseB, hscrun, htd, hrunR]
      · rw [List.map_append]
        simp only [slotSpecSrcs]
        congr 1
        · by_cases hsm : (force || valid.contains idx) = true
          · rw [if_pos hsm, if_pos hsm, moveDeps_src]
            unfold depSrcsRel
            rw [hdmap, hscpaths]
          · rw [Bool.not_eq_true] at hsm
            rw [if_neg (by rw [hsm]; exact Bool.false_ne_true),
              if_neg (by rw [hsm]; exact Bool.false_ne_true)]
            rfl
        · rw [hmapR]
          refine slotSpec_congr valid force rest (idx + 1) ?_
          intro q hq
          refine ⟨fun y hy => hscF y (List.mem_flatMap.mpr ⟨q, hq, by
              rw [hy]
              exact List.mem_singleton.mpr rfl⟩),
            fun y hy => hdpF y (List.mem_flatMap.mpr ⟨q, hq, hy⟩)⟩

/-! ### Stage-6 helper lemmas: slots, masks and paths -/

/-- Two slot lists agreeing on length and on every read are equal. -/
theorem data_ext : ∀ (l1 l2 : List (Option α)), l1.length = l2.length →
    (∀ j, l1.getD j none = l2.getD j none) → l1 = l2 := by
  intro l1
  induction l1 with
  | nil =>
    intro l2 hlen _
    cases l2 with
    | nil => rfl
    | cons b t2 => simp at hlen
  | cons a t ih =>
    intro l2 hlen hj
    cases l2 with
    | nil => simp at hlen
    | cons b t2 =>
      have h0 := hj 0
      simp only [List.getD_cons_zero] at h0
      rw [h0, ih t2 (by simpa using hlen) (fun j => by simpa using hj (j + 1))]

/-- Masking keeps the slot count. -/
theorem maskFrom_length (pm : List Nat) :
    ∀ (data : List (Option α)) (i : Nat), (maskFrom pm i data).length = data.length := by
  intro data
  induction data with
  | nil => intro i; rfl
  | cons a rest ih =>
    intro i
    simp [maskFrom, ih]

/-- A masked read is `none` on masked indices and unchanged elsewhere. -/
theorem maskFrom_getD (pm : List Nat) :
    ∀ (data : List (Option α)) (i j : Nat),
    (maskFrom pm i data).getD j none
      = if i + j ∈ pm then none else data.getD j none := by
  intro data
  induction data with
  | nil =>
    intro i j
    simp [maskFrom]
  | cons a rest ih =>
    intro i j
    cases j with
    | zero =>
      simp [maskFrom, List.getD_cons_zero]
    | succ k =>
      simp only [maskFrom, List.getD_cons_succ]
      rw [ih (i + 1) k]
      have harith : i + 1 + k = i + (k + 1) := by omega
      rw [harith]

/-- The live slots of a masked list are the unmasked live slots. -/
theorem liveSlots_maskFrom (pm : List Nat) :
    ∀ (data : List (Option α)) (i : Nat),
    liveSlots i (maskFrom pm i data)
      = (liveSlots i data).filter (fun q => !pm.contains q.1) := by
  intro data
  induction data with
  | nil => intro i; rfl
  | cons a rest ih =>
    intro i
    cases a with
    | none =>
      have hcol : (if i ∈ pm then (none : Option α) else none) = none := by
        by_cases hip : i ∈ pm
        · rw [if_pos hip]
        · rw [if_neg hip]
      show liveSlots i ((if i ∈ pm then (none : Option α) else none)
          :: maskFrom pm (i + 1) rest)
        = (liveSlots i (none :: rest)).filter (fun q => !pm.contains q.1)
      rw [hcol]
      show liveSlots (i + 1) (maskFrom pm (i + 1) rest)
        = (liveSlots (i + 1) rest).filter (fun q => !pm.contains q.1)
      exact ih (i + 1)
    | some a =>
      by_cases hip : i ∈ pm
      · show liveSlots i ((if i ∈ pm then none else some a) :: maskFrom pm (i + 1) rest)
          = (liveSlots i (some a :: rest)).filter (fun q => !pm.contains q.1)
        rw [if_pos hip]
        show liveSlots (i + 1) (maskFrom pm (i + 1) rest)
          = ((i, a) :: liveSlots (i + 1) rest).filter (fun q => !pm.contains q.1)
        rw [List.filter_cons, if_neg (by simp [containsIffMem, hip])]
        exact ih (i + 1)
      · show liveSlots i ((if i ∈ pm then none else some a) :: maskFrom pm (i + 1) rest)
          = (liveSlots i (some a :: rest)).filter (fun q => !pm.contains q.1)
        rw [if_neg hip]
        show (i, a) :: liveSlots (i + 1) (maskFrom pm (i + 1) rest)
          = ((i, a) :: liveSlots (i + 1) rest).filter (fun q => !pm.contains q.1)
        rw [List.filter_cons, if_pos (by simp [containsIffMem, hip])]
        rw [ih (i + 1)]

/-- Membership in the indexed live-slot list is a successful read. -/
theorem mem_liveSlots : ∀ (data : List (Option α)) (i : Nat) (q : Nat × α),
    q ∈ liveSlots i data ↔ i ≤ q.1 ∧ data.getD (q.1 - i) none = some q.2 := by
  intro data
  induction data with
  | nil =>
    intro i q
    simp [liveSlots]
  | cons a rest ih =>
    intro i q
    cases a with
    | none =>
      show q ∈ liveSlots (i + 1) rest ↔ _
      rw [ih (i + 1) q]
      constructor
      · rintro ⟨h1, h2⟩
        refine ⟨by omega, ?_⟩
        have harith : q.1 - i = (q.1 - (i + 1)) + 1 := by omega
        rw [harith, List.getD_cons_succ]
        exact h2
      · rintro ⟨h1, h2⟩
        by_cases hqi : q.1 = i
        · rw [hqi, Nat.sub_self, List.getD_cons_zero] at h2
          cases h2
        · refine ⟨by omega, ?_⟩
          have harith : q.1 - i = (q.1 - (i + 1)) + 1 := by omega
          rw [harith, List.getD_cons_succ] at h2
          exact h2
    | some a =>
      show q ∈ (i, a) :: liveSlots (i + 1) rest ↔ _
      rw [List.mem_cons, ih (i + 1) q]
      constructor
      · rintro (rfl | ⟨h1, h2⟩)
        · refine ⟨le_refl _, ?_⟩
          rw [Nat.sub_self, List.getD_cons_zero]
        · refine ⟨by omega, ?_⟩
          have harith : q.1 - i = (q.1 - (i + 1)) + 1 := by omega
          rw [harith, List.getD_cons_succ]
          exact h2
      · rintro ⟨h1, h2⟩
        by_cases hqi : q.1 = i
        · rw [hqi, Nat.sub_self, List.getD_cons_zero] at h2
          left
          injection h2 with h2
          rw [← hqi, h2]
        · right
          refine ⟨by omega, ?_⟩
          have harith : q.1 - i = (q.1 - (i + 1)) + 1 := by omega
          rw [harith, List.getD_cons_succ] at h2
          exact h2

/-- Membership in the live slots from zero is a successful read. -/
theorem mem_liveSlots_zero (data : List (Option α)) (h : Nat) (a : α) :
    (h, a) ∈ liveSlots 0 data ↔ data.getD h none = some a := by
  rw [mem_liveSlots]
  simp

/-- The remaining-media spec is the flat map of eligible slots. -/
theorem slotSpec_eq_flatMap (sidecars : FileMap SidecarInitial)
    (dupes : FileMap SidecarDupe) (valid : List Nat) (force : Bool) :
    ∀ (slots : List (Option Media)) (idx : Nat),
    slotSpecSrcs sidecars dupes valid force idx slots
      = (liveSlots idx slots).flatMap (fun q =>
          if force || valid.contains q.1 then depSrcsRel sidecars dupes q.2 else []) := by
  intro slots
  induction slots with
  | nil => intro idx; rfl
  | cons o rest ih =>
    intro idx
    cases o with
    | none =>
      show slotSpecSrcs sidecars dupes valid force (idx + 1) rest = _
      exact ih (idx + 1)
    | some m =>
      show (if force || valid.contains idx then depSrcsRel sidecars dupes m else [])
          ++ slotSpecSrcs sidecars dupes valid force (idx + 1) rest
        = ((idx, m) :: liveSlots (idx + 1) rest).flatMap _
      rw [List.flatMap_cons, ih (idx + 1)]

/-- A successful read names a member slot. -/
theorem getDSomeMem (l : List (Option α)) (h : Nat) (x : α)
    (hx : l.getD h none = some x) : some x ∈ l := by
  induction l generalizing h with
  | nil =>
    rw [List.getD_nil] at hx
    cases hx
  | cons a tl ih =>
    cases h with
    | zero =>
      rw [List.getD_cons_zero] at hx
      rw [hx]
      exact List.mem_cons_self _ _
    | succ n =>
      rw [List.getD_cons_succ] at hx
      exact List.mem_cons_of_mem a (ih n hx)

/-- In a list of slots whose live values have duplicate-free labels,
reads with equal labels come from the same slot. -/
theorem getD_label_inj (f : α → String) :
    ∀ (data : List (Option α)), ((data.filterMap id).map f).Nodup →
    ∀ (h1 h2 : Nat) (a1 a2 : α), data.getD h1 none = some a1 →
      data.getD h2 none = some a2 → f a1 = f a2 → h1 = h2 := by
  intro data
  induction data with
  | nil =>
    intro _ h1 h2 a1 a2 e1
    rw [List.getD_nil] at e1
    cases e1
  | cons o rest ih =>
    intro hnd h1 h2 a1 a2 e1 e2 hf
    cases o with
    | none =>
      cases h1 with
      | zero =>
        rw [List.getD_cons_zero] at e1
        cases e1
      | succ k1 =>
        cases h2 with
        | zero =>
          rw [List.getD_cons_zero] at e2
          cases e2
        | succ k2 =>
          rw [List.getD_cons_succ] at e1 e2
          have := ih (by simpa using hnd) k1 k2 a1 a2 e1 e2 hf
          omega
    | some b =>
      have hnd2 : (f b :: (rest.filterMap id).map f).Nodup := by simpa using hnd
      rw [List.nodup_cons] at hnd2
      cases h1 with
      | zero =>
        rw [List.getD_cons_zero] at e1
        injection e1 with e1
        cases h2 with
        | zero => rfl
        | succ k2 =>
          rw [List.getD_cons_succ] at e2
          exfalso
          apply hnd2.1
          rw [e1, hf]
          exact List.mem_map_of_mem f
            (List.mem_filterMap.mpr ⟨some a2, getDSomeMem _ _ _ e2, rfl⟩)
      | succ k1 =>
        cases h2 with
        | zero =>
          rw [List.getD_cons_zero] at e2
          injection e2 with e2
          rw [List.getD_cons_succ] at e1
          exfalso
          apply hnd2.1
          rw [e2, ← hf]
          exact List.mem_map_of_mem f
            (List.mem_filterMap.mpr ⟨some a1, getDSomeMem _ _ _ e1, rfl⟩)
        | succ k2 =>
          rw [List.getD_cons_succ] at e1 e2
          have := ih hnd2.2 k1 k2 a1 a2 e1 e2 hf
          omega

/-- A successful slot read is a live value. -/
theorem get?_mem_liveData {T : Type} {m : FileMap T} {h : Nat} {v : T}
    (hv : m.get? h = some v) : v ∈ m.liveData :=
  List.mem_filterMap.mpr ⟨some v, getDSomeMem _ _ _ hv, rfl⟩

/-- Every path a media entry's move emits is the entry's own path, a live
initial sidecar's path, or a live duplicate sidecar's path. -/
theorem depSrcsRel_mem {sidecars : FileMap SidecarInitial} {dupes : FileMap SidecarDupe}
    {m : Media} {P : String} (hP : P ∈ depSrcsRel sidecars dupes m) :
    P = m.metadata.source_file
      ∨ (∃ sc ∈ sidecars.liveData, P = sc.metadata.source_file)
      ∨ (∃ d ∈ dupes.liveData, P = d.metadata.source_file) := by
  unfold depSrcsRel at hP
  rcases List.mem_append.mp hP with hP1 | hP2
  · rcases List.mem_append.mp hP1 with hPd | hPm
    · obtain ⟨hd, _, hmapeq⟩ := List.mem_filterMap.mp hPd
      cases hget : dupes.get? hd with
      | none =>
        rw [hget] at hmapeq
        cases hmapeq
      | some d =>
        rw [hget] at hmapeq
        injection hmapeq with hmapeq
        exact Or.inr (Or.inr ⟨d, get?_mem_liveData hget, hmapeq.symm⟩)
    · exact Or.inl (List.mem_singleton.mp hPm)
  · cases hms : m.sidecar.bind sidecars.get? with
    | none =>
      rw [hms] at hP2
      cases hP2
    | some sc =>
      rw [hms] at hP2
      obtain ⟨y, _, hgy⟩ := Option.bind_eq_some.mp hms
      exact Or.inr (Or.inl ⟨sc, get?_mem_liveData hgy, List.mem_singleton.mp hP2⟩)

/-- A media entry's own path is among its emitted paths. -/
theorem self_mem_depSrcsRel (sidecars : FileMap SidecarInitial)
    (dupes : FileMap SidecarDupe) (m : Media) :
    m.metadata.source_file ∈ depSrcsRel sidecars dupes m := by
  unfold depSrcsRel
  exact List.mem_append.mpr (Or.inl (List.mem_append.mpr
    (Or.inr (List.mem_singleton.mpr rfl))))

/-! ### Stage-6 helper lemmas: group lookup and eligibility -/

/-- A flat map with nonempty chunks is duplicate-free only over a
duplicate-free list. -/
theorem nodup_of_flatMap_nodup {f : α → List β} :
    ∀ {l : List α}, (l.flatMap f).Nodup → (∀ a ∈ l, f a ≠ []) → l.Nodup := by
  intro l
  induction l with
  | nil => intro _ _; exact List.nodup_nil
  | cons c tl ih =>
    intro hnd hne
    rw [List.flatMap_cons, List.nodup_append] at hnd
    rw [List.nodup_cons]
    refine ⟨?_, ih hnd.2.1 (fun a ha => hne a (List.mem_cons_of_mem _ ha))⟩
    intro hc
    cases hfc : f c with
    | nil => exact hne c (List.mem_cons_self _ _) hfc
    | cons x xs =>
      have hx : x ∈ f c := by rw [hfc]; exact List.mem_cons_self _ _
      exact hnd.2.2 hx (List.mem_flatMap.mpr ⟨c, hc, hx⟩)

/-- A group that is not leftover videos has members. -/
theorem groupMembers_ne_nil {l : LivePhotoLinker}
    (h : l.is_leftover_videos = false) : groupMembers l ≠ [] := by
  unfold LivePhotoLinker.is_leftover_videos at h
  show ((l.images ++ l.videos).map (fun x => x.media_handle), ({images := [], videos := []} : LivePhotoLinker)).1 ≠ []
  cases himg : l.images with
  | nil => rw [himg] at h; simp at h
  | cons x xs => simp [himg]

/-- A member handle of a non-leftover group is processed by the
Live-Photo phase. -/
theorem mem_pmOf {map : List (String × LivePhotoLinker)}
    {p : String × LivePhotoLinker} (hp : p ∈ map)
    (hpl : p.2.is_leftover_videos = false) {h : Nat}
    (hh : h ∈ groupMembers p.2) : h ∈ pmOf map := by
  unfold pmOf
  exact List.mem_flatMap.mpr ⟨p, List.mem_filter.mpr ⟨hp, by simp [hpl]⟩, hh⟩

/-- With duplicate-free processed members, a handle belongs to at most one
non-leftover group. -/
theorem group_of_member_unique {map : List (String × LivePhotoLinker)}
    (hnd : (pmOf map).Nodup) {p q : String × LivePhotoLinker} {h : Nat}
    (hp : p ∈ map) (hq : q ∈ map)
    (hpl : p.2.is_leftover_videos = false) (hql : q.2.is_leftover_videos = false)
    (hhp : h ∈ groupMembers p.2) (hhq : h ∈ groupMembers q.2) : p = q := by
  have hfl : (map.filter (fun r => !r.2.is_leftover_videos)).Nodup := by
    refine nodup_of_flatMap_nodup hnd ?_
    intro a ha
    have := (List.mem_filter.mp ha).2
    refine groupMembers_ne_nil ?_
    cases hcase : a.2.is_leftover_videos with
    | false => rfl
    | true => rw [hcase] at this; simp at this
  by_contra hne
  exact flatMap_nodup_pair hne hhp hfl hnd
    (List.mem_filter.mpr ⟨hp, by simp [hpl]⟩)
    (List.mem_filter.mpr ⟨hq, by simp [hql]⟩) hhq

/-- The eligibility handle of a grouped member is the group's best image. -/
theorem eligibleHandle_of_group {map : List (String × LivePhotoLinker)}
    (hnd : (pmOf map).Nodup) {p : String × LivePhotoLinker} {h hm : Nat}
    (hp : p ∈ map) (hpl : p.2.is_leftover_videos = false)
    (hhp : h ∈ groupMembers p.2) (hb : p.2.get_image_best = some hm) :
    eligibleHandle map h = hm := by
  unfold eligibleHandle
  cases hf : map.find? (fun r => !r.2.is_leftover_videos && (groupMembers r.2).contains h) with
  | none =>
    exfalso
    refine (List.find?_eq_none.mp hf p hp) ?_
    rw [Bool.and_eq_true]
    exact ⟨by simp [hpl], (containsIffMem _ _).mpr hhp⟩
  | some q =>
    have hqmem := List.mem_of_find?_eq_some hf
    have hqpred := List.find?_some hf
    rw [Bool.and_eq_true] at hqpred
    have hql : q.2.is_leftover_videos = false := by
      have := hqpred.1
      cases hcase : q.2.is_leftover_videos with
      | false => rfl
      | true => rw [hcase] at this; simp at this
    have hqh : h ∈ groupMembers q.2 := (containsIffMem _ _).mp hqpred.2
    have hqp : q = p := group_of_member_unique hnd hqmem hp hql hpl hqh hhp
    rw [hqp]
    show p.2.get_image_best.getD h = hm
    rw [hb]
    rfl

/-- The eligibility handle of an ungrouped handle is the handle itself. -/
theorem eligibleHandle_of_not_pm {map : List (String × LivePhotoLinker)} {h : Nat}
    (hh : h ∉ pmOf map) : eligibleHandle map h = h := by
  unfold eligibleHandle
  rw [List.find?_eq_none.mpr ?_]
  intro p hp hpred
  rw [Bool.and_eq_true] at hpred
  have hpl : p.2.is_leftover_videos = false := by
    have := hpred.1
    cases hcase : p.2.is_leftover_videos with
    | false => rfl
    | true => rw [hcase] at this; simp at this
  exact hh (mem_pmOf hp hpl ((containsIffMem _ _).mp hpred.2))

/-- Decomposing membership in the Live-Photo phase's specified paths. -/
theorem specA_mem {media : FileMap Media} {sidecars : FileMap SidecarInitial}
    {dupes : FileMap SidecarDupe} {valid : List Nat} {force : Bool}
    {map : List (String × LivePhotoLinker)} {P : String}
    (hP : P ∈ map.flatMap (groupSpecSrcs media sidecars dupes valid force)) :
    ∃ p ∈ map, p.2.is_leftover_videos = false ∧
      ∃ hm, p.2.get_image_best = some hm ∧ (force || valid.contains hm) = true ∧
        ∃ h2 ∈ groupMembers p.2, ∃ m2, media.get? h2 = some m2 ∧
          P ∈ depSrcsRel sidecars dupes m2 := by
  obtain ⟨p, hp, hPp⟩ := List.mem_flatMap.mp hP
  by_cases hplv : p.2.is_leftover_videos = true
  · rw [groupSpec_eq_leftover hplv] at hPp
    cases hPp
  · rw [Bool.not_eq_true] at hplv
    obtain ⟨hm, hb⟩ := get_image_best_of_not_leftover hplv
    rw [groupSpec_eq_of_best hplv hb] at hPp
    by_cases hsm : (force || valid.contains hm) = true
    · rcases List.mem_append.mp hPp with h1 | h1
      · obtain ⟨h2, hh2F, hPh⟩ := List.mem_flatMap.mp h1
        have hh2 := List.mem_of_mem_filter hh2F
        cases hg2 : media.get? h2 with
        | none =>
          rw [show handleSpec media sidecars dupes (force || valid.contains hm) h2 = []
            from by unfold handleSpec; rw [if_pos hsm, hg2]] at hPh
          cases hPh
        | some m2 =>
          rw [handleSpec_pos hg2 hsm] at hPh
          exact ⟨p, hp, hplv, hm, hb, hsm, h2, hh2, m2, hg2, hPh⟩
      · have hhmM := get_image_best_mem hb
        cases hg2 : media.get? hm with
        | none =>
          rw [show handleSpec media sidecars dupes (force || valid.contains hm) hm = []
            from by unfold handleSpec; rw [if_pos hsm, hg2]] at h1
          cases h1
        | some m2 =>
          rw [handleSpec_pos hg2 hsm] at h1
          exact ⟨p, hp, hplv, hm, hb, hsm, hm, hhmM, m2, hg2, h1⟩
    · exfalso
      rw [Bool.not_eq_true] at hsm
      have hflat : ((groupMembers p.2).filter (fun x => x != hm)).flatMap
          (handleSpec media sidecars dupes (force || valid.contains hm)) = [] := by
        rw [flatMapCongrMem (fun x _ => handleSpec_neg hsm)]
        simp
      rw [hflat, handleSpec_neg hsm] at hPp
      cases hPp

/-- Building membership in the Live-Photo phase's specified paths. -/
theorem specA_mem_of {media : FileMap Media} {sidecars : FileMap SidecarInitial}
    {dupes : FileMap SidecarDupe} {valid : List Nat} {force : Bool}
    {map : List (String × LivePhotoLinker)} {p : String × LivePhotoLinker}
    (hp : p ∈ map) (hpl : p.2.is_leftover_videos = false) {hm : Nat}
    (hb : p.2.get_image_best = some hm) (hsm : (force || valid.contains hm) = true)
    {h2 : Nat} (hh2 : h2 ∈ groupMembers p.2) {m2 : Media}
    (hg2 : media.get? h2 = some m2) :
    m2.metadata.source_file
      ∈ map.flatMap (groupSpecSrcs media sidecars dupes valid force) := by
  refine List.mem_flatMap.mpr ⟨p, hp, ?_⟩
  rw [groupSpec_eq_of_best hpl hb]
  by_cases hh2m : h2 = hm
  · subst hh2m
    refine List.mem_append.mpr (Or.inr ?_)
    rw [handleSpec_pos hg2 hsm]
    exact self_mem_depSrcsRel _ _ _
  · refine List.mem_append.mpr (Or.inl (List.mem_flatMap.mpr ⟨h2,
      List.mem_filter.mpr ⟨hh2, by simpa using hh2m⟩, ?_⟩))
    rw [handleSpec_pos hg2 hsm]
    exact self_mem_depSrcsRel _ _ _

/-- C9 amended: in stage 6, with a well-formed state, when neither
validation nor force is on the stage is a no-op returning success;
otherwise a media file is moved iff `force` is true or its eligibility
handle is in the valid set — where the eligibility handle of a member of a
non-leftover Live-Photo group is the group's best image handle, not the
file's own handle (the claim's "its media handle" fails for grouped
files; see the counterexample). -/
theorem C9_move_policy_amended (s : OrgState) (force : Bool) (cmds : List MoveCmd)
    (hwf : wfOrg s)
    (hrun : move_and_rename_files false true force s = .ok cmds) :
    ((s.validation.enabled = false ∧ force = false) → cmds = []) ∧
    ((s.validation.enabled = true ∨ force = true) →
      ∀ h m, s.media.get? h = some m →
        ((∃ c ∈ cmds, c.src = m.metadata.source_file) ↔
          (force = true ∨ eligibleHandle s.live_photo_map h ∈ s.valid_media))) := by
  obtain ⟨w1, w2, w3, w4, w5, w6, w7, w8, w9, w10, w11⟩ := hwf
  have hunfold : move_and_rename_files false true force s
      = (if (!s.validation.enabled && !force) = true then .ok []
        else
          match phaseA s.valid_media force s.media s.sidecars s.dupes s.live_photo_map with
          | .error e => .error e
          | .ok (cmdsA, media1, sidecars1, dupes1) =>
            match phaseB s.valid_media force 0 sidecars1 dupes1 media1.data with
            | .error e => .error e
            | .ok cmdsB => .ok (cmdsA ++ cmdsB)) := by
    unfold move_and_rename_files
    rw [if_neg Bool.false_ne_true, if_neg (by simp)]
  constructor
  · rintro ⟨henb, hf⟩
    rw [hunfold, if_pos (by rw [henb, hf]; rfl)] at hrun
    exact (Except.ok.inj hrun).symm
  · intro hgate
    have hgatec : ¬((!s.validation.enabled && !force) = true) := by
      rcases hgate with hg | hg <;> rw [hg] <;> simp
    rw [hunfold, if_neg hgatec] at hrun
    obtain ⟨cmdsA, media1, sidecars1, dupes1, hrunA, hmapA, hMedA, hScA, hDupA, hlenA⟩ :=
      phaseA_spec s.valid_media force s.live_photo_map s.media s.sidecars s.dupes
        w1 w2 w3 w4 w5 w6
    simp only [hrunA] at hrun
    have hdata : media1.data = maskFrom (pmOf s.live_photo_map) 0 s.media.data := by
      refine data_ext _ _ ?_ ?_
      · rw [hlenA, maskFrom_length]
      · intro j
        rw [maskFrom_getD]
        have hz : 0 + j = j := by omega
        rw [hz]
        exact hMedA j
    have hslots : liveSlots 0 media1.data = restSlotsOf s := by
      rw [hdata, liveSlots_maskFrom]
      rfl
    have hrestS : (liveSlots 0 media1.data).flatMap (fun q => q.2.sidecar.toList)
        = restSOf s := by
      rw [hslots]
      rfl
    have hrestD : (liveSlots 0 media1.data).flatMap (fun q => q.2.dupes)
        = restDOf s := by
      rw [hslots]
      rfl
    obtain ⟨cmdsB, hrunB, hmapB⟩ :=
      phaseB_spec s.valid_media force media1.data 0 sidecars1 dupes1
        (by rw [hrestS]; exact w7)
        (by
          rw [hrestS]
          intro x hx
          rw [hScA x, if_neg (show x ∉ (pmOf s.live_photo_map).flatMap
            (sidecarHandleOf s.media) from (w8 x hx).2)]
          exact (w8 x hx).1)
        (by rw [hrestD]; exact w9)
        (by
          rw [hrestD]
          intro x hx
          rw [hDupA x, if_neg (show x ∉ (pmOf s.live_photo_map).flatMap
            (dupeHandlesOf s.media) from (w10 x hx).2)]
          exact (w10 x hx).1)
    simp only [hrunB] at hrun
    have hcmds : cmds = cmdsA ++ cmdsB := (Except.ok.inj hrun).symm
    have hmapB2 : cmdsB.map MoveCmd.src
        = slotSpecSrcs s.sidecars s.dupes s.valid_media force 0 media1.data := by
      rw [hmapB]
      refine slotSpec_congr _ _ media1.data 0 ?_
      intro q hq
      rw [hslots] at hq
      refine ⟨?_, ?_⟩
      · intro y hy
        have hyR : y ∈ restSOf s := List.mem_flatMap.mpr ⟨q, hq, by
          rw [hy]
          exact List.mem_singleton.mpr rfl⟩
        rw [hScA y, if_neg (show y ∉ (pmOf s.live_photo_map).flatMap
          (sidecarHandleOf s.media) from (w8 y hyR).2)]
      · intro y hy
        have hyR : y ∈ restDOf s := List.mem_flatMap.mpr ⟨q, hq, hy⟩
        rw [hDupA y, if_neg (show y ∉ (pmOf s.live_photo_map).flatMap
          (dupeHandlesOf s.media) from (w10 y hyR).2)]
    have hw11 := w11
    unfold allPaths at hw11
    rw [List.nodup_append] at hw11
    obtain ⟨hnAB, hnC, hdisjABC⟩ := hw11
    rw [List.nodup_append] at hnAB
    obtain ⟨hnA, hnB, hdisjAB⟩ := hnAB
    have hinj : ∀ h1 h2 m1 m2, s.media.get? h1 = some m1 → s.media.get? h2 = some m2 →
        m1.metadata.source_file = m2.metadata.source_file → h1 = h2 :=
      fun h1 h2 m1 m2 e1 e2 hf =>
        getD_label_inj (fun mm => mm.metadata.source_file) s.media.data hnA
          h1 h2 m1 m2 e1 e2 hf
    intro h m hgm
    have hPA : m.metadata.source_file
        ∈ (s.media.liveData).map (fun mm => mm.metadata.source_file) :=
      List.mem_map_of_mem _ (get?_mem_liveData hgm)
    have hPnotB : ∀ sc ∈ s.sidecars.liveData,
        m.metadata.source_file ≠ sc.metadata.source_file := by
      intro sc hsc heq
      exact hdisjAB hPA (by rw [heq]; exact List.mem_map_of_mem _ hsc)
    have hPnotC : ∀ d ∈ s.dupes.liveData,
        m.metadata.source_file ≠ d.metadata.source_file := by
      intro d hd heq
      exact hdisjABC (List.mem_append.mpr (Or.inl hPA))
        (by rw [heq]; exact List.mem_map_of_mem _ hd)
    have hdepP : ∀ m2, m.metadata.source_file ∈ depSrcsRel s.sidecars s.dupes m2 →
        m.metadata.source_file = m2.metadata.source_file := by
      intro m2 hmem
      rcases depSrcsRel_mem hmem with h1 | h1 | h1
      · exact h1
      · obtain ⟨sc, hsc, h1⟩ := h1
        exact absurd h1 (hPnotB sc hsc)
      · obtain ⟨d, hd, h1⟩ := h1
        exact absurd h1 (hPnotC d hd)
    rw [hcmds]
    have hmemiff : (∃ c ∈ cmdsA ++ cmdsB, c.src = m.metadata.source_file) ↔
        (m.metadata.source_file
            ∈ s.live_photo_map.flatMap
              (groupSpecSrcs s.media s.sidecars s.dupes s.valid_media force)
          ∨ m.metadata.source_file
            ∈ slotSpecSrcs s.sidecars s.dupes s.valid_media force 0 media1.data) := by
      rw [← hmapA, ← hmapB2]
      constructor
      · rintro ⟨c, hc, hceq⟩
        rcases List.mem_append.mp hc with h1 | h1
        · exact Or.inl (by rw [← hceq]; exact List.mem_map_of_mem _ h1)
        · exact Or.inr (by rw [← hceq]; exact List.mem_map_of_mem _ h1)
      · rintro (h1 | h1)
        · obtain ⟨c, hc, hceq⟩ := List.mem_map.mp h1
          exact ⟨c, List.mem_append.mpr (Or.inl hc), hceq⟩
        · obtain ⟨c, hc, hceq⟩ := List.mem_map.mp h1
          exact ⟨c, List.mem_append.mpr (Or.inr hc), hceq⟩
    rw [hmemiff]
    constructor
    · rintro (h1 | h1)
      · obtain ⟨p, hp, hplv, hmp, hbp, hsm, h2, hh2, m2, hg2, hPdep⟩ := specA_mem h1
        have hPeq := hdepP m2 hPdep
        have hth : h = h2 := hinj h h2 m m2 hgm hg2 hPeq
        rw [← hth] at hh2
        rw [eligibleHandle_of_group w1 hp hplv hh2 hbp]
        rw [Bool.or_eq_true] at hsm
        rcases hsm with hf | hc
        · exact Or.inl hf
        · exact Or.inr ((containsIffMem _ _).mp hc)
      · rw [slotSpec_eq_flatMap] at h1
        obtain ⟨q, hq, hPq⟩ := List.mem_flatMap.mp h1
        by_cases hcond : (force || s.valid_media.contains q.1) = true
        · rw [if_pos hcond] at hPq
          have hPeq := hdepP q.2 hPq
          have hq2 : media1.get? q.1 = some q.2 :=
            (mem_liveSlots_zero media1.data q.1 q.2).mp hq
          rw [hMedA q.1] at hq2
          by_cases hqpm : q.1 ∈ pmOf s.live_photo_map
          · rw [if_pos hqpm] at hq2
            cases hq2
          · rw [if_neg hqpm] at hq2
            have hth : h = q.1 := hinj h q.1 m q.2 hgm hq2 hPeq
            rw [eligibleHandle_of_not_pm (by rw [hth]; exact hqpm)]
            rw [Bool.or_eq_true] at hcond
            rcases hcond with hf | hc
            · exact Or.inl hf
            · exact Or.inr (by rw [hth]; exact (containsIffMem _ _).mp hc)
        · rw [if_neg hcond] at hPq
          cases hPq
    · intro hrhs
      by_cases hpmh : h ∈ pmOf s.live_photo_map
      · have hpmh2 := hpmh
        unfold pmOf at hpmh2
        obtain ⟨p, hpF, hh⟩ := List.mem_flatMap.mp hpmh2
        have hp := List.mem_of_mem_filter hpF
        have hplv : p.2.is_leftover_videos = false := by
          have hpr := (List.mem_filter.mp hpF).2
          cases hcase : p.2.is_leftover_videos with
          | false => rfl
          | true => rw [hcase] at hpr; simp at hpr
        obtain ⟨hmp, hbp⟩ := get_image_best_of_not_leftover hplv
        rw [eligibleHandle_of_group w1 hp hplv hh hbp] at hrhs
        have hsm : (force || s.valid_media.contains hmp) = true := by
          rw [Bool.or_eq_true]
          rcases hrhs with hf | hc
          · exact Or.inl hf
          · exact Or.inr ((containsIffMem _ _).mpr hc)
        exact Or.inl (specA_mem_of hp hplv hbp hsm hh hgm)
      · rw [eligibleHandle_of_not_pm hpmh] at hrhs
        have hcond : (force || s.valid_media.contains h) = true := by
          rw [Bool.or_eq_true]
          rcases hrhs with hf | hc
          · exact Or.inl hf
          · exact Or.inr ((containsIffMem _ _).mpr hc)
        refine Or.inr ?_
        rw [slotSpec_eq_flatMap]
        refine List.mem_flatMap.mpr ⟨(h, m), ?_, ?_⟩
        · rw [mem_liveSlots_zero]
          show media1.get? h = some m
          rw [hMedA h, if_neg hpmh]
          exact hgm
        · show m.metadata.source_file
            ∈ (if (force || s.valid_media.contains h) = true
              then depSrcsRel s.sidecars s.dupes m else [])
          rw [if_pos hcond]
          exact self_mem_depSrcsRel _ _ _

/-- C9 counterexample: with date-time validation enabled and `force` off,
stage 6 moves the Live-Photo group's video (handle 1) although handle 1 is
not in the valid set — eligibility is decided by the group's best image
handle 0, which is valid. The claim's "a file is moved iff force is true
or its media handle is in the valid set" therefore fails for grouped
files. -/
theorem C9_policy_counterexample :
    move_and_rename_files false true false exState9 = .ok exCmds9 ∧
    exState9.media.get? 1 = some { metadata := exMeta9v } ∧
    (∃ c ∈ exCmds9, c.src = exMeta9v.source_file) ∧
    ¬ (false = true ∨ 1 ∈ exState9.valid_media) ∧
    eligibleHandle exState9.live_photo_map 1 = 0 ∧ 0 ∈ exState9.valid_media := by
  exact ⟨rfl, rfl, by decide, by decide, by decide, by decide⟩

/-- Witness: the amended stage-6 policy theorem applied to the
counterexample state at the video's handle. -/
theorem C9_move_policy_amended_witness :
    wfOrg exState9 ∧
    ((∃ c ∈ exCmds9, c.src = exMeta9v.source_file) ↔
      (false = true ∨ eligibleHandle exState9.live_photo_map 1 ∈ exState9.valid_media)) :=
  ⟨by unfold wfOrg; decide,
    (C9_move_policy_amended exState9 false exCmds9 (by unfold wfOrg; decide) rfl).2
      (Or.inl rfl) 1 { metadata := exMeta9v } rfl⟩

end Catalog

namespace Catalog

/-! ## Theorems -/

/-- `LivePhotoLinkMetadata.cmp` in arithmetic form. -/
theorem linkCmp_eq_lt_iff (a b : LivePhotoLinkMetadata) :
    LivePhotoLinkMetadata.cmp a b = .lt ↔
      (a.codec.rank < b.codec.rank ∨
        (a.codec.rank = b.codec.rank ∧
          a.last_modified.utcMillis < b.last_modified.utcMillis)) := by
  unfold LivePhotoLinkMetadata.cmp Codec.cmp DateTimeFO.cmp
  rcases Nat.lt_trichotomy a.codec.rank b.codec.rank with h | h | h
  · rw [Nat.compare_eq_lt.mpr h]
    simp only [true_iff, eq_self_iff_true]
    exact Or.inl h
  · rw [Nat.compare_eq_eq.mpr h]
    show compare a.last_modified.utcMillis b.last_modified.utcMillis = .lt ↔ _
    rw [compare_lt_iff_lt]
    constructor
    · intro h2
      exact Or.inr ⟨h, h2⟩
    · intro h2
      rcases h2 with h2 | h2
      · omega
      · exact h2.2
  · rw [Nat.compare_eq_gt.mpr h]
    constructor
    · intro h2
      cases h2
    · intro h2
      exfalso
      omega

/-- Non-loss is transitive for the link ordering. -/
theorem linkCmp_notLt_trans {a b c : LivePhotoLinkMetadata}
    (hab : LivePhotoLinkMetadata.cmp a b ≠ .lt)
    (hbc : LivePhotoLinkMetadata.cmp b c ≠ .lt) :
    LivePhotoLinkMetadata.cmp a c ≠ .lt := by
  intro hac
  rw [linkCmp_eq_lt_iff] at hac
  rw [Ne, linkCmp_eq_lt_iff] at hab hbc
  rcases Nat.lt_trichotomy a.codec.rank b.codec.rank with h | h | h <;>
    rcases Int.lt_trichotomy a.last_modified.utcMillis b.last_modified.utcMillis with h2 | h2 | h2 <;>
      omega

/-- The element that the fold in `heapPeek` keeps never loses to the
running start nor to any folded element. -/
theorem foldlMax_notLt (xs : List LivePhotoLinkMetadata) (b : LivePhotoLinkMetadata) :
    LivePhotoLinkMetadata.cmp
        (xs.foldl (fun best a =>
          if LivePhotoLinkMetadata.cmp best a = .lt then a else best) b) b ≠ .lt ∧
      ∀ x ∈ xs,
        LivePhotoLinkMetadata.cmp
          (xs.foldl (fun best a =>
            if LivePhotoLinkMetadata.cmp best a = .lt then a else best) b) x ≠ .lt := by
  induction xs generalizing b with
  | nil =>
    simp only [List.foldl_nil]
    constructor
    · intro hlt
      rw [linkCmp_eq_lt_iff] at hlt
      omega
    · intro x hx
      cases hx
  | cons a xs ih =>
    have hstep : ∀ b0 : LivePhotoLinkMetadata,
        LivePhotoLinkMetadata.cmp
            (if LivePhotoLinkMetadata.cmp b0 a = .lt then a else b0) b0 ≠ .lt ∧
          LivePhotoLinkMetadata.cmp
            (if LivePhotoLinkMetadata.cmp b0 a = .lt then a else b0) a ≠ .lt := by
      intro b0
      by_cases h : LivePhotoLinkMetadata.cmp b0 a = .lt
      · rw [linkCmp_eq_lt_iff] at h
        rw [if_pos (linkCmp_eq_lt_iff b0 a |>.mpr h)]
        constructor
        · intro hlt
          rw [linkCmp_eq_lt_iff] at hlt
          omega
        · intro hlt
          rw [linkCmp_eq_lt_iff] at hlt
          omega
      · rw [if_neg h]
        constructor
        · intro hlt
          rw [linkCmp_eq_lt_iff] at hlt
          omega
        · exact h
    constructor
    · simp only [List.foldl_cons]
      exact linkCmp_notLt_trans
        (ih (if LivePhotoLinkMetadata.cmp b a = .lt then a else b)).1 (hstep b).1
    · intro x hx
      simp only [List.foldl_cons]
      rcases List.mem_cons.mp hx with rfl | hx
      · exact linkCmp_notLt_trans
          (ih (if LivePhotoLinkMetadata.cmp b x = .lt then x else b)).1 (hstep b).2
      · exact (ih (if LivePhotoLinkMetadata.cmp b a = .lt then a else b)).2 x hx

/-- The heap root (`peek`) never loses to any element of the heap. -/
theorem heapPeek_maximal (side : List LivePhotoLinkMetadata)
    (best : LivePhotoLinkMetadata) (hpeek : heapPeek side = some best) :
    ∀ x ∈ side, LivePhotoLinkMetadata.cmp best x ≠ .lt := by
  cases side with
  | nil => cases hpeek
  | cons a xs =>
    simp only [heapPeek, Option.some.injEq] at hpeek
    intro x hx
    rcases List.mem_cons.mp hx with rfl | hx
    · rw [← hpeek]
      exact (foldlMax_notLt xs x).1
    · rw [← hpeek]
      exact (foldlMax_notLt xs a).2 x hx

/-- C1: for link entries on one side of a `LivePhotoLinker`, the heap
ordering compares codec rank first — HEIC and HEVC share the top rank,
JPEG and AVC share the next rank, anything else (codec `Other`) ranks
lowest — and on equal codec rank it compares modification instants, the
newer one greater; consequently the element `peek` returns (the heap
maximum, the group's canonical best member) never compares below any
member of the side, so every other member is a duplicate. -/
theorem C1_live_photo_dedup_ordering :
    (Codec.rank .HEIC = Codec.rank .HEVC) ∧
    (Codec.rank .JPEG = Codec.rank .AVC) ∧
    (Codec.rank .JPEG < Codec.rank .HEIC) ∧
    (Codec.rank .Other < Codec.rank .JPEG) ∧
    (∀ a b : LivePhotoLinkMetadata, a.codec.rank ≠ b.codec.rank →
      LivePhotoLinkMetadata.cmp a b = compare a.codec.rank b.codec.rank) ∧
    (∀ a b : LivePhotoLinkMetadata, a.codec.rank = b.codec.rank →
      LivePhotoLinkMetadata.cmp a b
        = compare a.last_modified.utcMillis b.last_modified.utcMillis) ∧
    (∀ (side : List LivePhotoLinkMetadata) (best : LivePhotoLinkMetadata),
      heapPeek side = some best →
      ∀ x ∈ side, LivePhotoLinkMetadata.cmp best x ≠ .lt) := by
  refine ⟨rfl, rfl, by decide, by decide, ?_, ?_, heapPeek_maximal⟩
  · intro a b hne
    unfold LivePhotoLinkMetadata.cmp Codec.cmp
    rcases Nat.lt_trichotomy a.codec.rank b.codec.rank with h | h | h
    · simp [Nat.compare_eq_lt.mpr h]
    · exact absurd h hne
    · simp [Nat.compare_eq_gt.mpr h]
  · intro a b heq
    unfold LivePhotoLinkMetadata.cmp Codec.cmp DateTimeFO.cmp
    rw [Nat.compare_eq_eq.mpr heq]

/-- C1 witness: the ordering facts evaluated on concrete link entries
(an HEIC from 2025, a JPEG from 2000, an older HEIC), and the heap of all
three peaking at the newest HEIC. -/
theorem C1_live_photo_dedup_ordering_witness :
    (LivePhotoLinkMetadata.cmp exLinkHeic exLinkJpeg
        = compare exLinkHeic.codec.rank exLinkJpeg.codec.rank) ∧
    (LivePhotoLinkMetadata.cmp exLinkHeic exLinkHeicOld
        = compare exLinkHeic.last_modified.utcMillis exLinkHeicOld.last_modified.utcMillis) ∧
    (heapPeek [exLinkJpeg, exLinkHeicOld, exLinkHeic] = some exLinkHeic) ∧
    (LivePhotoLinkMetadata.cmp exLinkHeic exLinkJpeg ≠ .lt) := by
  refine ⟨?_, ?_, ?_, ?_⟩
  · exact (C1_live_photo_dedup_ordering).2.2.2.2.1 exLinkHeic exLinkJpeg (by decide)
  · exact (C1_live_photo_dedup_ordering).2.2.2.2.2.1 exLinkHeic exLinkHeicOld (by decide)
  · decide
  · exact (C1_live_photo_dedup_ordering).2.2.2.2.2.2 [exLinkJpeg, exLinkHeicOld, exLinkHeic]
      exLinkHeic (by decide) exLinkJpeg (by decide)

/-- C10: `get_image_best` reaches its panic (`peek().unwrap()` of `None`,
modelled as `none`) exactly when the image side holds no entries, and
`get_video_best` likewise for the video side. -/
theorem C10_get_best_empty_panics (l : LivePhotoLinker) :
    (l.images = [] ↔ l.get_image_best = none) ∧
    (l.videos = [] ↔ l.get_video_best = none) := by
  constructor
  · unfold LivePhotoLinker.get_image_best heapPeek
    cases l.images <;> simp
  · unfold LivePhotoLinker.get_video_best heapPeek
    cases l.videos <;> simp

/-- C4 amended: within one media entry, stage 6 issues every duplicate
sidecar's move first, then the media file's move, and the initial
sidecar's move last (the media extension having been read off the `Media`
before any move). The claim's ordering — initial sidecar before media —
is what fails; see the counterexample. -/
theorem C4_move_order_amended (metadata_source : String) (media : Media)
    (sidecar : Option SidecarInitial) (dupes : List SidecarDupe) :
    (move_media_with_deps metadata_source media sidecar dupes).map MoveCmd.src
      = dupes.map (fun d => d.metadata.source_file)
        ++ [media.metadata.source_file]
        ++ (match sidecar with
            | some sc => [sc.metadata.source_file]
            | none => []) := by
  unfold move_media_with_deps
  cases sidecar <;> simp [List.map_map, Function.comp]

/-- C4 counterexample: for a media entry with one duplicate and one
initial sidecar, the issued order is duplicate, media, initial sidecar —
not the claimed duplicate, initial sidecar, media: the initial sidecar's
move command is issued after the media file's, not before. -/
theorem C4_move_order_counterexample :
    ((move_media_with_deps "image.jpg.xmp" exMedia4 (some exSidecar4) [exDupe4]).map
        MoveCmd.src = ["image_01.jpg.xmp", "image.jpg", "image.jpg.xmp"]) ∧
    ¬ ((move_media_with_deps "image.jpg.xmp" exMedia4 (some exSidecar4) [exDupe4]).map
        MoveCmd.src = ["image_01.jpg.xmp", "image.jpg.xmp", "image.jpg"]) := by
  constructor
  · decide
  · decide

/-- C2: stage 2, run on a media file without a linked sidecar, succeeds
and inserts the new `SidecarInitial`, but neither side is linked: the
media's sidecar handle is still `none` and the inserted sidecar's
back-link is `none` (`create_missing_sidecars` never calls
`Media::set_sidecar` or `set_media_handle`). -/
theorem C2_stage2_no_link :
    (create_missing_sidecars exXmpRead exState2 = .ok exState2After) ∧
    (exState2After.media.get? 0 = some { metadata := exMedia2Meta, sidecar := none }) ∧
    (exState2After.sidecars.get? 0 = some { metadata := exXmpMeta2, media := none }) := by
  refine ⟨by rfl, by decide, by decide⟩

/-- C3: on a linker group that is not a pair (two images, one video, all
with sidecars), the sub-pass does not warn-and-skip. With warn-level
logging enabled, building the warning drains both heaps and the
fall-through `get_image_best` panics; with it disabled, the sub-pass falls
through and copies metadata from the best image's sidecar onto the video's
sidecar, changing the sidecar map. -/
theorem C3_sync_nonpair_not_skipped :
    (sync_live_photo_metadata true exCopy exState3
      = .error "panic: peek().unwrap() on empty image heap") ∧
    (sync_live_photo_metadata false exCopy exState3
      = .ok (exState3After, [("i1.heic.xmp", "v.mov.xmp")])) ∧
    exState3After ≠ exState3 := by
  refine ⟨by rfl, by rfl, by decide⟩

/-- C8 counterexample: when the media lacks a linked sidecar but its
target `<path>.xmp` already exists on disk, stage 2 does not skip-and-
succeed: `create_xmp` returns the already-exists error and
`create_missing_sidecars` propagates it. -/
theorem C8_existing_xmp_counterexample :
    create_missing_sidecars exXmpRead exState8
      = .error "image.jpg.xmp: Cannot create XMP (file already exists)." := by
  rfl

/-- C5 counterexample: with `sub_sec_modify_date` equal to the zero
placeholder and a real, non-zero `modify_date`, `get_modify_date` does not
use `modify_date` (claimed) but falls back to the filesystem
`file_modify_date`: the zero filter runs after the `or`, emptying the
whole chain. The two instants differ. -/
theorem C5_zero_subsec_counterexample :
    (exMedia5.metadata.sub_sec_modify_date = some zeroDateString) ∧
    (exMedia5.metadata.modify_date = some "2000-01-01T00:00:00+00:00") ∧
    (parse_date_time "2000-01-01T00:00:00+00:00" = .ok (⟨2000, 1, 1, 0, 0, 0, 0⟩, some 0)) ∧
    (exMedia5.get_modify_date locUTC = some dtY2025) ∧
    dtY2025.utcMillis ≠ dtY2000.utcMillis := by
  refine ⟨rfl, rfl, rfl, rfl, by decide⟩

/-- C5 amended: `get_modify_date` prefers `sub_sec_modify_date`, then
`modify_date`, then `file_modify_date`, and parses the chosen string with
its written offset, else with the machine-local offset — except that the
zero filter applies to the result of the `or`, so a zero-valued
`sub_sec_modify_date` masks `modify_date` entirely and falls directly back
to `file_modify_date` (the claim said `modify_date` would then be used). -/
theorem C5_modify_date_priority_amended (m : Media) (loc : NaiveDT → Int) :
    (∀ s d tz, m.metadata.sub_sec_modify_date = some s → s ≠ zeroDateString →
      parse_date_time s = .ok (d, tz) →
      m.get_modify_date loc = some ⟨d, tz.getD (loc d)⟩) ∧
    (∀ s d tz, m.metadata.sub_sec_modify_date = none →
      m.metadata.modify_date = some s → s ≠ zeroDateString →
      parse_date_time s = .ok (d, tz) →
      m.get_modify_date loc = some ⟨d, tz.getD (loc d)⟩) ∧
    (∀ d tz,
      (m.metadata.sub_sec_modify_date = some zeroDateString ∨
        (m.metadata.sub_sec_modify_date = none ∧
          (m.metadata.modify_date = none ∨ m.metadata.modify_date = some zeroDateString))) →
      parse_date_time m.metadata.file_modify_date = .ok (d, tz) →
      m.get_modify_date loc = some ⟨d, tz.getD (loc d)⟩) := by
  refine ⟨?_, ?_, ?_⟩
  · intro s d tz hsub hne hparse
    unfold Media.get_modify_date
    rw [hsub]
    simp only [Option.or, Option.filter, bne_iff_ne, Ne, hne, not_false_iff, if_pos,
      Option.getD_some, hparse]
  · intro s d tz hsub hmod hne hparse
    unfold Media.get_modify_date
    rw [hsub, hmod]
    simp only [Option.or, Option.filter, bne_iff_ne, Ne, hne, not_false_iff, if_pos,
      Option.getD_some, hparse]
  · intro d tz hzero hparse
    unfold Media.get_modify_date
    rcases hzero with hsub | ⟨hsub, hmod⟩
    · rw [hsub]
      simp only [Option.or, Option.filter, bne_self_eq_false, if_neg, Option.getD_none, hparse,
        Bool.false_eq_true, not_false_iff]
    · rcases hmod with hmod | hmod
      · rw [hsub, hmod]
        simp only [Option.or, Option.filter, Option.getD_none, hparse]
      · rw [hsub, hmod]
        simp only [Option.or, Option.filter, bne_self_eq_false, if_neg, Option.getD_none,
          hparse, Bool.false_eq_true, not_false_iff]

/-- C5 witness: the amended priority evaluated on concrete media — a
non-zero `SubSecModifyDate` with a written offset wins over the other two
fields, and the zero-`SubSecModifyDate` media falls back to its
filesystem date. -/
theorem C5_modify_date_priority_amended_witness :
    (exMedia5b.get_modify_date locUTC = some ⟨⟨2000, 1, 1, 0, 0, 0, 999⟩, -28800⟩) ∧
    (exMedia5.get_modify_date locUTC = some dtY2025) := by
  constructor
  · exact (C5_modify_date_priority_amended exMedia5b locUTC).1
      "2000-01-01T00:00:00.999-08:00" ⟨2000, 1, 1, 0, 0, 0, 999⟩ (some (-28800))
      rfl (by decide) rfl
  · exact (C5_modify_date_priority_amended exMedia5 locUTC).2.2
      ⟨2025, 1, 1, 0, 0, 0, 0⟩ (some 0) (Or.inl rfl) rfl

/-- Inserting never touches existing slots: the live data of the new map
is the old live data plus the new value. -/
theorem liveData_insert (m : FileMap T) (p : String) (v : T) :
    (m.insert p v).liveData = m.liveData ++ [v] := by
  simp [FileMap.insert, FileMap.liveData]

/-- Tombstoning one slot keeps the remaining live data a sublist. -/
theorem filterMap_set_none_sublist (l : List (Option α)) (h : Nat) :
    ((l.set h none).filterMap id).Sublist (l.filterMap id) := by
  induction l generalizing h with
  | nil => simp
  | cons a tl ih =>
    cases h with
    | zero =>
      cases a with
      | none => simp [List.set]
      | some x =>
        simp only [List.set, List.filterMap_cons, id]
        exact List.sublist_cons_of_sublist x (List.Sublist.refl _)
    | succ n =>
      cases a with
      | none =>
        simpa [List.set] using ih n
      | some x =>
        simp only [List.set, List.filterMap_cons, id]
        exact (ih n).cons₂ x

/-- `takeAt` keeps the live data a sublist of the original. -/
theorem liveData_takeAt_sublist (m : FileMap T) (h : Nat) :
    (m.takeAt h).liveData.Sublist m.liveData :=
  filterMap_set_none_sublist m.data h

/-- C6 counterexample: inserting the path `a` twice is not rejected — the
map then holds two live entries with the same path (the index merely
points at the newer one). -/
theorem C6_duplicate_insert_counterexample :
    (runOps (FileMap.new String) [FMOp.ins "a" "a", FMOp.ins "a" "a"] = .ok c6badMap) ∧
    ¬ (livePaths id c6badMap).Nodup := by
  refine ⟨rfl, by decide⟩

/-- C6 amended: `FileMap::insert` performs no duplicate check — it always
appends a fresh live slot and repoints the path index — so the map can
hold two live entries with equal paths after a duplicate insertion. The
no-duplicate invariant holds exactly for operation sequences whose every
insertion carries a path not live at that moment (tombstoned paths may be
re-inserted, the stage-2 insertion point) and whose takes are in bounds. -/
theorem C6_filemap_nodup_amended (T : Type) (pathOf : T → String) (m : FileMap T)
    (ops : List (FMOp T)) (m' : FileMap T)
    (hnd : (livePaths pathOf m).Nodup) (hsafe : safeOps pathOf m ops = true)
    (hrun : runOps m ops = .ok m') : (livePaths pathOf m').Nodup := by
  induction ops generalizing m with
  | nil =>
    cases hrun
    exact hnd
  | cons op rest ih =>
    cases op with
    | ins p v =>
      simp only [runOps] at hrun
      simp only [safeOps, Bool.and_eq_true, List.all_eq_true, bne_iff_ne, Ne] at hsafe
      refine ih (m.insert p v) ?_ hsafe.2 hrun
      unfold livePaths
      rw [liveData_insert, List.map_append]
      rw [List.nodup_append]
      refine ⟨hnd, List.nodup_singleton _, ?_⟩
      intro q hq hq1
      simp only [List.map_cons, List.map_nil, List.mem_singleton] at hq1
      exact hsafe.1 q hq hq1
    | takeOp h =>
      simp only [safeOps, Bool.and_eq_true, decide_eq_true_eq] at hsafe
      simp only [runOps, if_pos hsafe.1] at hrun
      refine ih (m.takeAt h) ?_ hsafe.2 hrun
      exact ((liveData_takeAt_sublist m h).map pathOf).nodup hnd

/-- C6 witness: a take followed by a re-insertion of the same path (the
tombstone-replacement pattern of stage 2) keeps the live paths unique. -/
theorem C6_filemap_nodup_amended_witness :
    (livePaths id (FileMap.mk [none, some "a"] [("a", 1)] : FileMap String)).Nodup := by
  exact C6_filemap_nodup_amended String id (FileMap.new String)
    [FMOp.ins "a" "a", FMOp.takeOp 0, FMOp.ins "a" "a"]
    (FileMap.mk [none, some "a"] [("a", 1)]) (by decide) (by decide) rfl

/-- A successful slot read is a member of the data list. -/
theorem getD_none_mem (l : List (Option α)) (h : Nat) (x : α)
    (hx : l.getD h none = some x) : some x ∈ l := by
  induction l generalizing h with
  | nil => cases hx
  | cons a tl ih =>
    cases h with
    | zero =>
      rw [List.getD_cons_zero] at hx
      rw [hx]
      exact List.mem_cons_self _ _
    | succ n =>
      rw [List.getD_cons_succ] at hx
      exact List.mem_cons_of_mem a (ih n hx)

/-- A successful `create_xmp` extends the disk with the target path, which
therefore did not exist before. -/
theorem create_xmp_ok_props (disk : List String) (read : String → Metadata)
    (p : String) (md : Metadata) (disk1 : List String)
    (h : create_xmp disk read p = .ok (md, disk1)) :
    disk1 = disk ++ [p ++ ".xmp"] ∧ (p ++ ".xmp") ∉ disk := by
  simp only [create_xmp] at h
  split at h
  · cases h
  · split at h
    · cases h
    · split at h
      · cases h
      · split at h
        · cases h
        · rename_i hnotin
          cases h
          exact ⟨rfl, hnotin⟩

/-- When some live media slot is missing its sidecar link while its target
sidecar path exists on disk, the stage-2 loop cannot succeed: it reaches
that slot (by then the disk has only grown) and `create_xmp` errors. -/
theorem createMissingLoop_err (read : String → Metadata)
    (sidecars : FileMap SidecarInitial) (disk : List String)
    (slots : List (Option Media))
    (hex : ∃ mm : Media, some mm ∈ slots ∧ mm.sidecar = none ∧
      (mm.metadata.source_file ++ ".xmp") ∈ disk) :
    ∀ r, createMissingLoop read sidecars disk slots ≠ .ok r := by
  induction slots generalizing sidecars disk with
  | nil =>
    obtain ⟨mm, hmem, _⟩ := hex
    cases hmem
  | cons slot rest ih =>
    obtain ⟨mm, hmem, hside, hdisk⟩ := hex
    cases slot with
    | none =>
      have hmem1 : some mm ∈ rest := by
        rcases List.mem_cons.mp hmem with h1 | h1
        · cases h1
        · exact h1
      simpa [createMissingLoop] using ih sidecars disk ⟨mm, hmem1, hside, hdisk⟩
    | some m0 =>
      by_cases hmiss : m0.is_missing_sidecar
      · cases hc : create_xmp disk read m0.metadata.source_file with
        | error e =>
          simp [createMissingLoop, hmiss, hc]
        | ok pr =>
          have hm0 : some mm ∈ rest := by
            rcases List.mem_cons.mp hmem with h1 | h1
            · exfalso
              have h2 : mm = m0 := by
                injection h1
              subst h2
              exact (create_xmp_ok_props disk read mm.metadata.source_file pr.1 pr.2
                (by rw [hc])).2 hdisk
            · exact h1
          have hdisk1 : (mm.metadata.source_file ++ ".xmp") ∈ pr.2 := by
            rw [(create_xmp_ok_props disk read m0.metadata.source_file pr.1 pr.2
              (by rw [hc])).1]
            exact List.mem_append_left _ hdisk
          cases hs : SidecarInitial.new pr.1 with
          | error e =>
            simp [createMissingLoop, hmiss, hc, hs]
          | ok sc =>
            simpa [createMissingLoop, hmiss, hc, hs] using
              ih (sidecars.insert pr.1.source_file sc) pr.2 ⟨mm, hm0, hside, hdisk1⟩
      · have hm0 : some mm ∈ rest := by
          rcases List.mem_cons.mp hmem with h1 | h1
          · exfalso
            have h2 : mm = m0 := by
              injection h1
            subst h2
            simp [Media.is_missing_sidecar, hside] at hmiss
          · exact h1
        simpa [createMissingLoop, hmiss] using ih sidecars disk ⟨mm, hm0, hside, hdisk⟩

/-- C8 amended: when a `Media` lacks a linked `SidecarInitial` but its
target sidecar path already exists on disk, stage 2 does not skip-and-
succeed; `create_xmp` rejects the creation (the already-exists error, or
an earlier `create_xmp` error) and `create_missing_sidecars` propagates
the error, so the stage never returns success. The in-memory skip happens
only for media whose sidecar handle was linked at load time. -/
theorem C8_existing_xmp_errors_amended (read : String → Metadata) (s : OrgState)
    (h : Nat) (m : Media) (hm : s.media.get? h = some m) (hmiss : m.sidecar = none)
    (hdisk : (m.metadata.source_file ++ ".xmp") ∈ s.disk) :
    ∀ s2, create_missing_sidecars read s ≠ .ok s2 := by
  intro s2 hok
  unfold create_missing_sidecars at hok
  cases hloop : createMissingLoop read s.sidecars s.disk s.media.data with
  | error e =>
    rw [hloop] at hok
    cases hok
  | ok pr =>
    exact createMissingLoop_err read s.sidecars s.disk s.media.data
      ⟨m, getD_none_mem s.media.data h m hm, hmiss, hdisk⟩ pr hloop

/-- C8 witness: the amended behavior on the concrete state whose sidecar
file already exists. -/
theorem C8_existing_xmp_errors_amended_witness :
    create_missing_sidecars exXmpRead exState8 ≠ .ok exState8 := by
  exact C8_existing_xmp_errors_amended exXmpRead exState8 0
    { metadata := exMedia2Meta } rfl rfl (by decide) exState8

/-- Draining a side and reinserting one entry leaves exactly that entry on
the side and the other side untouched. -/
theorem sideList_insert_drain (sd : LPSide) (l : LivePhotoLinker)
    (e : LivePhotoLinkMetadata) :
    sideList sd (sideInsert sd (sideDrain sd l).2 e) = [e] ∧
    sideList (sideOther sd) (sideInsert sd (sideDrain sd l).2 e)
      = sideList (sideOther sd) l := by
  cases sd <;>
    simp [sideList, sideInsert, sideDrain, sideOther, LivePhotoLinker.insert_image,
      LivePhotoLinker.insert_video, LivePhotoLinker.drain_images,
      LivePhotoLinker.drain_videos]

/-- The per-group deduplication body leaves its side with at most one
entry, keeps a non-empty side non-empty, and never touches the other
side. -/
theorem dedupOne_shape (loc : NaiveDT → Int) (sd : LPSide) (media : FileMap Media)
    (tr : Option (List String)) (l l1 : LivePhotoLinker) (media1 : FileMap Media)
    (tr1 : Option (List String)) (r : List String)
    (h : dedupOne loc sd media tr l = .ok (l1, media1, tr1, r)) :
    (sideList sd l1).length ≤ 1 ∧
    (sideList sd l ≠ [] → sideList sd l1 ≠ []) ∧
    sideList (sideOther sd) l1 = sideList (sideOther sd) l := by
  unfold dedupOne at h
  by_cases hnd : sideHasDuplicates sd l = true
  · have hcond : ¬ ((!sideHasDuplicates sd l) = true) := by
      rw [hnd]
      simp
    rw [if_neg hcond] at h
    cases hbest : sideBest sd l with
    | none =>
      simp only [hbest] at h
      cases h
    | some handle =>
      simp only [hbest] at h
      cases hto : takeOthers media tr handle (sideDrain sd l).1 with
      | error e =>
        simp only [hto] at h
        cases h
      | ok trip =>
        obtain ⟨mediaA, trA, removed⟩ := trip
        simp only [hto] at h
        cases hget : mediaA.get? handle with
        | none =>
          simp only [hget] at h
          cases h
        | some m =>
          simp only [hget] at h
          cases hnew : LivePhotoLinkMetadata.new handle m loc with
          | none =>
            simp only [hnew] at h
            cases h
          | some e =>
            simp only [hnew] at h
            obtain ⟨rfl, rfl, rfl, rfl⟩ := h
            refine ⟨?_, ?_, (sideList_insert_drain sd l e).2⟩
            · rw [(sideList_insert_drain sd l e).1]
              simp
            · intro _
              rw [(sideList_insert_drain sd l e).1]
              simp
  · rw [Bool.not_eq_true] at hnd
    have hcond : (!sideHasDuplicates sd l) = true := by
      rw [hnd]
      rfl
    rw [if_pos hcond] at h
    cases h
    simp only [sideHasDuplicates, decide_eq_false_iff_not, not_lt] at hnd
    exact ⟨hnd, fun hne => hne, rfl⟩

/-- A group without duplicates on the chosen side is left untouched and
removes nothing. -/
theorem dedupOne_of_no_dup (loc : NaiveDT → Int) (sd : LPSide) (media : FileMap Media)
    (tr : Option (List String)) (l : LivePhotoLinker)
    (h : sideHasDuplicates sd l = false) :
    dedupOne loc sd media tr l = .ok (l, media, tr, []) := by
  unfold dedupOne
  rw [h]
  rfl

/-- Every group in the output of a deduplication pass arises from a group
of the input, under the same key, by one `dedupOne` step. -/
theorem dedupByType_mem (loc : NaiveDT → Int) (sd : LPSide) :
    ∀ (lst : List (String × LivePhotoLinker)) (media : FileMap Media)
      (tr : Option (List String)) (lst1 : List (String × LivePhotoLinker))
      (media1 : FileMap Media) (tr1 : Option (List String)) (r : List String),
      dedupByType loc sd media tr lst = .ok (lst1, media1, tr1, r) →
      ∀ q ∈ lst1, ∃ p ∈ lst,
        ∃ (m2 : FileMap Media) (t2 : Option (List String)) (m3 : FileMap Media)
          (t3 : Option (List String)) (r2 : List String),
          dedupOne loc sd m2 t2 p.2 = .ok (q.2, m3, t3, r2) := by
  intro lst
  induction lst with
  | nil =>
    intro media tr lst1 media1 tr1 r h q hq
    cases h
    cases hq
  | cons p rest ih =>
    intro media tr lst1 media1 tr1 r h q hq
    unfold dedupByType at h
    cases hone : dedupOne loc sd media tr p.2 with
    | error e =>
      simp only [hone] at h
      cases h
    | ok quad =>
      obtain ⟨l1, media2, tr2, r1⟩ := quad
      simp only [hone] at h
      cases hrest : dedupByType loc sd media2 tr2 rest with
      | error e =>
        simp only [hrest] at h
        cases h
      | ok quad2 =>
        obtain ⟨rest1, media3, tr3, r2⟩ := quad2
        simp only [hrest] at h
        obtain ⟨rfl, rfl, rfl, rfl⟩ := h
        rcases List.mem_cons.mp hq with rfl | hq1
        · exact ⟨p, List.mem_cons_self _ _, media, tr, media2, tr2, r1, hone⟩
        · obtain ⟨p2, hp2, w⟩ := ih media2 tr2 rest1 _ _ _ hrest q hq1
          exact ⟨p2, List.mem_cons_of_mem _ hp2, w⟩

/-- A deduplication pass over a map without duplicates on the chosen side
is the identity and removes nothing. -/
theorem dedupByType_of_all_no_dup (loc : NaiveDT → Int) (sd : LPSide) :
    ∀ (lst : List (String × LivePhotoLinker)) (media : FileMap Media)
      (tr : Option (List String)),
      (∀ p ∈ lst, sideHasDuplicates sd p.2 = false) →
      dedupByType loc sd media tr lst = .ok (lst, media, tr, []) := by
  intro lst
  induction lst with
  | nil =>
    intro media tr _
    rfl
  | cons p rest ih =>
    intro media tr hall
    obtain ⟨pid, pl⟩ := p
    simp only [dedupByType,
      dedupOne_of_no_dup loc sd media tr pl (hall (pid, pl) (List.mem_cons_self _ _)),
      ih media tr (fun q hq => hall q (List.mem_cons_of_mem _ hq))]
    rfl

/-- C7: after stage 1's three sub-passes succeed in order, every remaining
linker entry has at most one image, at most one video and a non-empty
image side, and a second run of the duplicate-removal sub-pass changes
nothing and removes nothing. -/
theorem C7_stage1_invariants (loc : NaiveDT → Int) (s s1 s2 s3 : OrgState)
    (r1 r2 r3 : List String)
    (h1 : remove_live_photo_leftovers s = .ok (s1, r1))
    (h2 : remove_live_photo_duplicates loc s1 = .ok (s2, r2))
    (h3 : remove_sidecar_leftovers s2 = .ok (s3, r3)) :
    (∀ p ∈ s3.live_photo_map,
      p.2.images.length ≤ 1 ∧ p.2.videos.length ≤ 1 ∧ p.2.images ≠ []) ∧
    remove_live_photo_duplicates loc s3 = .ok (s3, []) := by
  have hmap1 : s1.live_photo_map
      = s.live_photo_map.filter (fun p => !p.2.is_leftover_videos) := by
    simp only [remove_live_photo_leftovers] at h1
    cases hg : removeLeftoverGroups s.media s.trash
        (s.live_photo_map.filter (fun p => p.2.is_leftover_videos)) with
    | error e =>
      simp only [hg] at h1
      cases h1
    | ok trip =>
      obtain ⟨mediaA, trA, removed⟩ := trip
      simp only [hg] at h1
      obtain ⟨rfl, rfl⟩ := h1
      rfl
  obtain ⟨map2, media2, tr2, ra, map3, media3, tr3, rb, himg, hvid, hs2map⟩ :
      ∃ map2 media2 tr2 ra map3 media3 tr3 rb,
        dedupByType loc LPSide.image s1.media s1.trash s1.live_photo_map
          = .ok (map2, media2, tr2, ra) ∧
        dedupByType loc LPSide.video media2 tr2 map2 = .ok (map3, media3, tr3, rb) ∧
        s2.live_photo_map = map3 := by
    unfold remove_live_photo_duplicates at h2
    cases himg : dedupByType loc LPSide.image s1.media s1.trash s1.live_photo_map with
    | error e =>
      simp only [himg] at h2
      cases h2
    | ok quadi =>
      obtain ⟨map2, media2, tr2, ra⟩ := quadi
      simp only [himg] at h2
      cases hvid : dedupByType loc LPSide.video media2 tr2 map2 with
      | error e =>
        simp only [hvid] at h2
        cases h2
      | ok quadv =>
        obtain ⟨map3, media3, tr3, rb⟩ := quadv
        simp only [hvid] at h2
        obtain ⟨rfl, rfl⟩ := h2
        exact ⟨map2, media2, tr2, ra, map3, media3, tr3, rb, rfl, hvid, rfl⟩
  have hmap3 : s3.live_photo_map = s2.live_photo_map := by
    unfold remove_sidecar_leftovers at h3
    cases hi : removeLeftoverSlots SidecarInitial.is_leftover
        (fun sc => sc.metadata.source_file) s2.trash s2.sidecars.data with
    | error e =>
      simp only [hi] at h3
      cases h3
    | ok tripi =>
      obtain ⟨scData, trA, rA⟩ := tripi
      simp only [hi] at h3
      cases hd : removeLeftoverSlots SidecarDupe.is_leftover
          (fun sc => sc.metadata.source_file) trA s2.dupes.data with
      | error e =>
        simp only [hd] at h3
        cases h3
      | ok tripd =>
        obtain ⟨dpData, trB, rB⟩ := tripd
        simp only [hd] at h3
        obtain ⟨rfl, rfl⟩ := h3
        rfl
  have hbounds : ∀ p ∈ s3.live_photo_map,
      p.2.images.length ≤ 1 ∧ p.2.videos.length ≤ 1 ∧ p.2.images ≠ [] := by
    intro p hp
    rw [hmap3, hs2map] at hp
    obtain ⟨q1, hq1, m2, t2, m3, t3, rv, honev⟩ :=
      dedupByType_mem loc LPSide.video map2 media2 tr2 map3 media3 tr3 rb hvid p hp
    have hv := dedupOne_shape loc LPSide.video m2 t2 q1.2 p.2 m3 t3 rv honev
    obtain ⟨q0, hq0, m4, t4, m5, t5, ri, honei⟩ :=
      dedupByType_mem loc LPSide.image s1.live_photo_map s1.media s1.trash map2 media2
        tr2 ra himg q1 hq1
    have hi := dedupOne_shape loc LPSide.image m4 t4 q0.2 q1.2 m5 t5 ri honei
    have h0img : q0.2.images ≠ [] := by
      rw [hmap1] at hq0
      have h5 := (List.mem_filter.mp hq0).2
      simp only [LivePhotoLinker.is_leftover_videos, Bool.not_eq_true'] at h5
      intro hnil
      rw [hnil] at h5
      simp at h5
    have himgeq : p.2.images = q1.2.images := hv.2.2
    refine ⟨?_, ?_, ?_⟩
    · rw [himgeq]
      exact hi.1
    · exact hv.1
    · rw [himgeq]
      exact hi.2.1 h0img
  refine ⟨hbounds, ?_⟩
  have hnodup : ∀ (sd : LPSide), ∀ p ∈ s3.live_photo_map,
      sideHasDuplicates sd p.2 = false := by
    intro sd p hp
    have := hbounds p hp
    cases sd <;>
      simp only [sideHasDuplicates, sideList, decide_eq_false_iff_not, not_lt] <;>
      omega
  simp only [remove_live_photo_duplicates,
    dedupByType_of_all_no_dup loc LPSide.image s3.live_photo_map s3.media s3.trash
      (hnodup LPSide.image),
    dedupByType_of_all_no_dup loc LPSide.video s3.live_photo_map s3.media s3.trash
      (hnodup LPSide.video)]
  rfl

/-- C7 witness: the three sub-passes run on a concrete catalog with a
duplicated Live-Photo image; afterwards the group is a clean pair and a
second deduplication removes nothing. -/
theorem C7_stage1_invariants_witness :
    (∀ p ∈ exState7After.live_photo_map,
      p.2.images.length ≤ 1 ∧ p.2.videos.length ≤ 1 ∧ p.2.images ≠ []) ∧
    remove_live_photo_duplicates locUTC exState7After = .ok (exState7After, []) := by
  exact C7_stage1_invariants locUTC exState7 exState7 exState7After exState7After
    [] ["i2.jpg"] [] rfl rfl rfl


end Catalog
